import Mathlib

/-!
Verification development for the netmap support layer of the ice Linux
driver (src/LINUX/ice_netmap_linux.h).  The reconcilers
ice_netmap_txsync / ice_netmap_rxsync and the per-ring buffer-size
configuration ice_netmap_bufcfg are embedded shallowly: descriptor
rings and the user-visible netmap ring become Lean structures, the
while-loops become fuel-indexed recursions (a result of none marks
fuel exhaustion, which on well-formed rings never occurs), and the
memory/DMA side effects (cache synchronization calls, tail-register
doorbell writes, descriptor status polls) are recorded in an explicit
trace so that theorems can speak about them.
-/

set_option maxRecDepth 8000

namespace IceNetmap

/-- Errno code EINVAL as returned by ice_netmap_bufcfg on a rejected size. -/
def EINVAL_errno : Nat := 22

/-- Errno code ENXIO as returned by the sync routines when the NIC ring is missing. -/
def ENXIO_errno : Nat := 6

/-- Bit position of the receive-context buffer-size field (ICE_RLAN_CTX_DBUF_S),
so the hardware buffer-size granularity is 2^7 = 128 bytes. -/
def ICE_RLAN_CTX_DBUF_S : Nat := 7

/-- Shift of the command field inside a TX descriptor quad word 1 (ICE_TXD_QW1_CMD_S). -/
def ICE_TXD_QW1_CMD_S : Nat := 4

/-- End-of-packet TX command bit (ICE_TX_DESC_CMD_EOP). -/
def ICE_TX_DESC_CMD_EOP : Nat := 1

/-- Report-status (completion report) TX command bit (ICE_TX_DESC_CMD_RS). -/
def ICE_TX_DESC_CMD_RS : Nat := 2

/-- Shift of the buffer-size field inside a TX descriptor quad word 1
(ICE_TXD_QW1_TX_BUF_SZ_S). -/
def ICE_TXD_QW1_TX_BUF_SZ_S : Nat := 34

/-- Descriptor-done status bit position of an RX flex descriptor
(ICE_RX_FLEX_DESC_STATUS0_DD_S). -/
def ICE_RX_FLEX_DESC_STATUS0_DD_S : Nat := 0

/-- End-of-frame status bit position of an RX flex descriptor
(ICE_RX_FLEX_DESC_STATUS0_EOF_S). -/
def ICE_RX_FLEX_DESC_STATUS0_EOF_S : Nat := 1

/-- Modelled from the spec: ring indices advance modulo the slot count
(netmap core helper nm_next(i, lim) = i == lim ? 0 : i + 1; netmap_kern.h is
not part of this repository). -/
def nm_next (i lim : Nat) : Nat := if i = lim then 0 else i + 1

/-- Modelled from the spec: ring indices regress modulo the slot count
(netmap core helper nm_prev(i, lim) = i == 0 ? lim : i - 1). -/
def nm_prev (i lim : Nat) : Nat := if i = 0 then lim else i - 1

/-- Modelled from the spec: the Index Translator (spec 4.1) maps a NIC-ring
index to a user-ring index by adding the fixed per-ring offset nkr_hwofs
modulo the slot count (netmap core helper netmap_idx_n2k; in this driver
nkr_hwofs is nonnegative, so it is carried as a Nat). -/
def netmap_idx_n2k (numSlots hwofs idx : Nat) : Nat :=
  (idx + hwofs) % numSlots

/-- Modelled from the spec: the Index Translator (spec 4.1) maps a user-ring
index to a NIC-ring index by subtracting the fixed per-ring offset nkr_hwofs
modulo the slot count (netmap core helper netmap_idx_k2n). -/
def netmap_idx_k2n (numSlots hwofs idx : Nat) : Nat :=
  (idx + (numSlots - hwofs % numSlots)) % numSlots

/-- Slot flag set of a netmap slot; only the three flags the driver reads or
writes are carried (NS_REPORT, NS_BUF_CHANGED, NS_MOREFRAG). -/
structure SlotFlags where
  ns_report : Bool
  ns_buf_changed : Bool
  ns_morefrag : Bool
deriving Repr, DecidableEq, Inhabited

/-- Netmap user-ring slot: buffer handle, length, flags and the offset word
(slot->ptr) consulted by nm_get_offset. -/
structure NetmapSlot where
  buf_idx : Nat
  len : Nat
  flags : SlotFlags
  ptr : Nat
deriving Repr, DecidableEq, Inhabited

/-- Modelled from the spec: per-slot buffer offset lookup (netmap core helper
nm_get_offset reads the offset bits stored in slot->ptr). -/
def nm_get_offset (s : NetmapSlot) : Nat := s.ptr

/-- Modelled from the spec: buffer-handle resolution to a bus address (netmap
core helper PNMB); addresses are abstracted to the buffer handle itself,
which is sound because no claim inspects concrete address values. -/
def PNMB_paddr (s : NetmapSlot) : Nat := s.buf_idx

/-- Modelled from the spec: offset-including buffer resolution (netmap core
helper PNMB_O = PNMB plus the slot offset). -/
def PNMB_O_paddr (s : NetmapSlot) : Nat := PNMB_paddr s + nm_get_offset s

/-- Modelled from the spec: a refill slot whose buffer handle fails to
resolve (handle 0 or out of range of the buffer lookup table) yields the
ring's reserved placeholder buffer, the address the source compares against
NETMAP_BUF_BASE(na). -/
def PNMB_is_base (objtotal : Nat) (s : NetmapSlot) : Bool :=
  s.buf_idx = 0 || objtotal ≤ s.buf_idx

/-- Netmap kring state used by the driver: geometry, the three user-visible
indices, the pending-interrupt kflag bit, the slot array and the fields
touched by ice_netmap_bufcfg. -/
structure NetmapKring where
  nkr_num_slots : Nat
  nkr_hwofs : Nat
  nr_hwcur : Nat
  nr_hwtail : Nat
  rhead : Nat
  pendintr : Bool
  slots : List NetmapSlot
  tx : Bool
  hwbuf_len : Nat
  buf_align : Nat
deriving Repr, DecidableEq, Inhabited

/-- Embedding of ice_netmap_bufcfg: on a TX kring every requested size is
stored unvalidated; on an RX kring the size is first aligned down to the
128-byte hardware granularity and rejected with EINVAL unless the aligned
value lies in [1024, 16384 - 128]. -/
def ice_netmap_bufcfg (kring : NetmapKring) (target : Nat) : NetmapKring × Nat :=
  let kring := { kring with buf_align := 0 }
  if kring.tx then
    ({ kring with hwbuf_len := target }, 0)
  else
    let incr := 1 <<< ICE_RLAN_CTX_DBUF_S
    let target := target / incr * incr
    if target < 1024 ∨ 16384 - incr < target then
      (kring, EINVAL_errno)
    else
      ({ kring with hwbuf_len := target }, 0)

/-- Sample RX kring used to exhibit the behaviour of ice_netmap_bufcfg. -/
def bufcfgSampleRx : NetmapKring :=
  { nkr_num_slots := 8, nkr_hwofs := 0, nr_hwcur := 0, nr_hwtail := 0,
    rhead := 0, pendintr := false, slots := [], tx := false,
    hwbuf_len := 3000, buf_align := 77 }

/-- C6 counterexample: the claim says a requested RX size is accepted only if
it is a multiple of the 128-byte hardware alignment, but a request of 1100
(not a multiple of 128) is accepted: the code aligns the request down to
1024 and stores that, returning success. -/
theorem bufcfg_accepts_unaligned_cex :
    (ice_netmap_bufcfg bufcfgSampleRx 1100).2 = 0 ∧
    1100 % 128 ≠ 0 ∧
    (ice_netmap_bufcfg bufcfgSampleRx 1100).1.hwbuf_len = 1024 := by
  decide

/-- C6 (amended): applied to a receive ring, ice_netmap_bufcfg first aligns
the requested size down to a multiple of 128 and accepts exactly when the
request lies in [1024, 16384), storing the aligned-down value in hwbuf_len;
otherwise it rejects with EINVAL and leaves hwbuf_len unassigned.  In
particular 1000 is rejected and 2048 is accepted.  Applied to a transmit
ring it accepts every requested value unvalidated. -/
theorem bufcfg_validation (kring : NetmapKring) (target : Nat) :
    (kring.tx = false →
      ((ice_netmap_bufcfg kring target).2 = 0 ↔ 1024 ≤ target ∧ target < 16384) ∧
      ((ice_netmap_bufcfg kring target).2 = 0 →
        (ice_netmap_bufcfg kring target).1.hwbuf_len = target / 128 * 128) ∧
      ((ice_netmap_bufcfg kring target).2 ≠ 0 →
        (ice_netmap_bufcfg kring target).2 = EINVAL_errno ∧
        (ice_netmap_bufcfg kring target).1.hwbuf_len = kring.hwbuf_len)) ∧
    (kring.tx = true →
      (ice_netmap_bufcfg kring target).2 = 0 ∧
      (ice_netmap_bufcfg kring target).1.hwbuf_len = target) ∧
    (ice_netmap_bufcfg bufcfgSampleRx 1000).2 = EINVAL_errno ∧
    (ice_netmap_bufcfg bufcfgSampleRx 2048).2 = 0 ∧
    (ice_netmap_bufcfg bufcfgSampleRx 2048).1.hwbuf_len = 2048 := by
  refine ⟨?_, ?_, by decide, by decide, by decide⟩
  · intro htx
    have hieq : ice_netmap_bufcfg kring target =
        (if target / 128 * 128 < 1024 ∨ 16384 - 128 < target / 128 * 128 then
          ({ kring with buf_align := 0 }, EINVAL_errno)
        else
          ({ kring with buf_align := 0, hwbuf_len := target / 128 * 128 }, 0)) := by
      simp [ice_netmap_bufcfg, htx, ICE_RLAN_CTX_DBUF_S, Nat.shiftLeft_eq]
    rw [hieq]
    split
    next hcond =>
      refine ⟨⟨fun h => absurd h (by simp [EINVAL_errno]), fun h => absurd hcond (by omega)⟩,
        fun h => absurd h (by simp [EINVAL_errno]), fun _ => ⟨rfl, rfl⟩⟩
    next hcond =>
      refine ⟨⟨fun _ => by omega, fun _ => rfl⟩, fun _ => rfl, fun h => absurd rfl h⟩
  · intro htx
    simp [ice_netmap_bufcfg, htx]

/-- Closed witness for the amended C6 theorem at the concrete RX request 2048
and TX request 12345. -/
theorem bufcfg_validation_witness :
    ((ice_netmap_bufcfg bufcfgSampleRx 2048).2 = 0 ↔ 1024 ≤ 2048 ∧ 2048 < 16384) ∧
    ((ice_netmap_bufcfg { bufcfgSampleRx with tx := true } 12345).2 = 0 ∧
      (ice_netmap_bufcfg { bufcfgSampleRx with tx := true } 12345).1.hwbuf_len = 12345) :=
  ⟨(bufcfg_validation bufcfgSampleRx 2048).1 rfl |>.1,
   (bufcfg_validation { bufcfgSampleRx with tx := true } 12345).2.1 rfl⟩

/-- Trace of the hardware-visible side effects performed by a reconciler
invocation: netmap_sync_map_dev calls (address, length), netmap_sync_map_cpu
calls (address, length), writel doorbell writes to the ring tail register,
and RX descriptor status polls (NIC index whose status_error0 was read). -/
structure Trace where
  dev_syncs : List (Nat × Nat)
  cpu_syncs : List (Nat × Nat)
  tail_writes : List Nat
  status_polls : List Nat
deriving Repr, DecidableEq, Inhabited

/-- Legacy ice TX descriptor: buffer address and the combined
cmd/type/offset/buffer-size quad word written by the send phase. -/
structure IceTxDesc where
  buf_addr : Nat
  cmd_type_offset_bsz : Nat
deriving Repr, DecidableEq, Inhabited

/-- Driver TX ring: presence of the ring object (txr pointer) and of its
descriptor memory (txr->desc), the descriptor array, the 32-bit completion
head writeback word that lives just past the last descriptor (read by
ice_netmap_read_hwtail), the software cleaned position and the tail
doorbell register. -/
structure IceTxRing where
  present : Bool
  desc_ok : Bool
  descs : List IceTxDesc
  hwtail : Nat
  next_to_clean : Nat
  tail_reg : Nat
deriving Repr, DecidableEq, Inhabited

/-- Full state read and written by ice_netmap_txsync: the link-carrier bit,
NETMAP_BUF_SIZE(na), the netmap kring and the NIC TX ring, plus the
side-effect trace. -/
structure TxState where
  carrier_ok : Bool
  bufSize : Nat
  kring : NetmapKring
  txr : IceTxRing
  trace : Trace
deriving Repr, DecidableEq, Inhabited

/-- Loop-carried state of the send phase of ice_netmap_txsync. -/
structure TxSendSt where
  slots : List NetmapSlot
  descs : List IceTxDesc
  trace : Trace
  nm_i : Nat
  nic_i : Nat
  n : Nat
deriving Repr, DecidableEq, Inhabited

/-- Does a TX descriptor carry the completion-report (RS) command bit? -/
def txdHasRS (d : IceTxDesc) : Bool :=
  d.cmd_type_offset_bsz &&& (ICE_TX_DESC_CMD_RS <<< ICE_TXD_QW1_CMD_S) ≠ 0

/-- Does a TX descriptor carry the end-of-packet (EOP) command bit? -/
def txdHasEOP (d : IceTxDesc) : Bool :=
  d.cmd_type_offset_bsz &&& (ICE_TX_DESC_CMD_EOP <<< ICE_TXD_QW1_CMD_S) ≠ 0

/-- Number of descriptors of a TX ring carrying the RS bit. -/
def countRS (l : List IceTxDesc) : Nat :=
  (l.filter (fun d => txdHasRS d)).length

/-- One iteration of the send-phase loop of ice_netmap_txsync (source lines
338-383): fetch the slot, resolve and clamp its buffer, build the command
flags (EOP unless NS_MOREFRAG; RS when NS_REPORT is set or the NIC index is
0 or report_frequency), clear the consumed slot flags, synchronize the
buffer for the device and write the NIC descriptor, then advance both
indices. -/
def txSendStep (lim report_frequency bufSize : Nat) (st : TxSendSt) : TxSendSt :=
  let slot := st.slots.getD st.nm_i default
  let len := slot.len
  let offset := nm_get_offset slot
  let paddr := PNMB_paddr slot
  let len := if bufSize < len + offset then bufSize - offset else len
  let hw_flags :=
    if !slot.flags.ns_morefrag then
      (ICE_TX_DESC_CMD_EOP <<< ICE_TXD_QW1_CMD_S) |||
        (if slot.flags.ns_report || st.nic_i = 0 || st.nic_i = report_frequency then
          ICE_TX_DESC_CMD_RS <<< ICE_TXD_QW1_CMD_S
        else 0)
    else 0
  let slot := { slot with flags := { ns_report := false, ns_buf_changed := false,
                                     ns_morefrag := false } }
  let curr : IceTxDesc :=
    { buf_addr := paddr + offset,
      cmd_type_offset_bsz := (len <<< ICE_TXD_QW1_TX_BUF_SZ_S) ||| hw_flags }
  { st with
    slots := st.slots.set st.nm_i slot,
    descs := st.descs.set st.nic_i curr,
    trace := { st.trace with dev_syncs := st.trace.dev_syncs ++ [(paddr, len)] },
    nm_i := nm_next st.nm_i lim,
    nic_i := nm_next st.nic_i lim,
    n := st.n + 1 }

/-- Send-phase loop of ice_netmap_txsync, fuel-indexed; runs txSendStep until
the netmap index reaches head.  none marks fuel exhaustion. -/
def txSendLoop (lim head report_frequency bufSize : Nat) :
    Nat → TxSendSt → Option TxSendSt
  | 0, st => if st.nm_i = head then some st else none
  | fuel+1, st =>
    if st.nm_i = head then some st
    else txSendLoop lim head report_frequency bufSize fuel
      (txSendStep lim report_frequency bufSize st)

/-- Reclaim-phase loop of ice_netmap_txsync (source lines 407-414): walk from
tosync up to (excluding) the translated hardware position, issuing a
netmap_sync_map_cpu call for every slot returned to userspace. -/
def txReclaimLoop (lim target : Nat) (slots : List NetmapSlot) :
    Nat → Trace → Nat → Option Trace
  | 0, tr, tosync => if tosync = target then some tr else none
  | fuel+1, tr, tosync =>
    if tosync = target then some tr
    else
      let slot := slots.getD tosync default
      let paddr := PNMB_O_paddr slot
      txReclaimLoop lim target slots fuel
        { tr with cpu_syncs := tr.cpu_syncs ++ [(paddr, slot.len)] }
        (nm_next tosync lim)

/-- Embedding of ice_netmap_read_hwtail: the hardware completion position is
the little-endian 32-bit word the NIC writes just past the last descriptor
(desc[nslots]); the model stores that word in the hwtail field. -/
def ice_netmap_read_hwtail (txr : IceTxRing) : Nat := txr.hwtail

/-- Send phase of ice_netmap_txsync (source lines 331-393): if userspace
queued packets (nr_hwcur differs from rhead), run the send loop over them,
publish the final NIC index to the tail doorbell register after the write
barrier, and advance nr_hwcur to head. -/
def txSendPhase (fuel : Nat) (s : TxState) : Option TxState :=
  let lim := s.kring.nkr_num_slots - 1
  let head := s.kring.rhead
  let report_frequency := s.kring.nkr_num_slots >>> 1
  if s.kring.nr_hwcur ≠ head then
    let nic_i := netmap_idx_k2n s.kring.nkr_num_slots s.kring.nkr_hwofs s.kring.nr_hwcur
    let st0 : TxSendSt :=
      { slots := s.kring.slots, descs := s.txr.descs, trace := s.trace,
        nm_i := s.kring.nr_hwcur, nic_i := nic_i, n := 0 }
    match txSendLoop lim head report_frequency s.bufSize fuel st0 with
    | none => none
    | some st =>
      some { s with
        kring := { s.kring with slots := st.slots, nr_hwcur := head },
        txr := { s.txr with descs := st.descs, tail_reg := st.nic_i },
        trace := { st.trace with tail_writes := st.trace.tail_writes ++ [st.nic_i] } }
  else some s

/-- Reclaim phase of ice_netmap_txsync (source lines 398-416): read the
hardware completion position from the trailing sentinel; if it moved,
translate it, synchronize every returned slot for the consumer, record the
new cleaned position and set nr_hwtail one behind the translated position. -/
def txReclaimPhase (fuel : Nat) (s1 : TxState) : Option (TxState × Nat) :=
  let lim := s1.kring.nkr_num_slots - 1
  let nic_i := ice_netmap_read_hwtail s1.txr
  if nic_i ≠ s1.txr.next_to_clean then
    let nm_i := netmap_idx_n2k s1.kring.nkr_num_slots s1.kring.nkr_hwofs nic_i
    let s2 := { s1 with txr := { s1.txr with next_to_clean := nic_i } }
    let tosync := nm_next s2.kring.nr_hwtail lim
    match txReclaimLoop lim nm_i s2.kring.slots fuel s2.trace tosync with
    | none => none
    | some tr =>
      some ({ s2 with
        kring := { s2.kring with nr_hwtail := nm_prev nm_i lim },
        trace := tr }, 0)
  else some (s1, 0)

/-- Embedding of ice_netmap_txsync: precondition and ring-presence checks,
then the send phase followed by the reclaim phase.  Returns none only on
fuel exhaustion of one of the two loops; otherwise some (state, errno). -/
def ice_netmap_txsync (fuel : Nat) (s : TxState) : Option (TxState × Nat) :=
  if !s.carrier_ok then some (s, 0)
  else if !s.txr.present || !s.txr.desc_ok then some (s, ENXIO_errno)
  else
    match txSendPhase fuel s with
    | none => none
    | some s1 => txReclaimPhase fuel s1

/-- RX flex descriptor (union ice_32b_rx_flex_desc), carrying the fields the
driver touches: the refill-side buffer address words (read.pkt_addr and
read.hdr_addr) and the writeback-side status/length words
(wb.status_error0 and wb.pkt_len). -/
structure IceRxDesc where
  pkt_addr : Nat
  hdr_addr : Nat
  status_error0 : Nat
  pkt_len : Nat
deriving Repr, DecidableEq, Inhabited

/-- Driver RX ring: presence bits, the descriptor array, the software
next-to-clean position and the tail doorbell register. -/
structure IceRxRing where
  present : Bool
  desc_ok : Bool
  descs : List IceRxDesc
  next_to_clean : Nat
  tail_reg : Nat
deriving Repr, DecidableEq, Inhabited

/-- Full state read and written by ice_netmap_rxsync: the administrative
running bit, the global netmap_no_pendintr tunable, the size of the buffer
lookup table (na_lut.objtotal, used by the placeholder-buffer test),
NETMAP_BUF_SIZE(na), the netmap kring and the NIC RX ring, plus the
side-effect trace. -/
structure RxState where
  running : Bool
  netmap_no_pendintr : Bool
  objtotal : Nat
  bufSize : Nat
  kring : NetmapKring
  rxr : IceRxRing
  trace : Trace
deriving Repr, DecidableEq, Inhabited

/-- Result of ice_netmap_rxsync: a plain errno-style return, or the value of
netmap_ring_reinit(kring).  Modelled from the spec: the reinit signal is
reported as a distinct result so the scheduler can retry (spec 6);
netmap_ring_reinit itself is netmap-core code outside this repository. -/
inductive RxResult where
  | ret (code : Nat)
  | reinit
deriving Repr, DecidableEq

/-- Does an RX descriptor writeback have the descriptor-done (DD) status bit? -/
def rxdDD (d : IceRxDesc) : Bool :=
  d.status_error0 &&& (1 <<< ICE_RX_FLEX_DESC_STATUS0_DD_S) ≠ 0

/-- Does an RX descriptor writeback have the end-of-frame (EOF) status bit? -/
def rxdEOF (d : IceRxDesc) : Bool :=
  d.status_error0 &&& (1 <<< ICE_RX_FLEX_DESC_STATUS0_EOF_S) ≠ 0

/-- Loop-carried state of the import phase of ice_netmap_rxsync: the slot
array, the trace, the two ring indices, the candidate new tail (lim + 1
while no complete packet has been seen), the complete flag and the
iteration counter. -/
structure RxImportSt where
  slots : List NetmapSlot
  trace : Trace
  nm_i : Nat
  nic_i : Nat
  ntail : Nat
  complete : Bool
  n : Nat
deriving Repr, DecidableEq, Inhabited

/-- Top-of-iteration tail publication of the import loop: if the previous
descriptor completed a packet, move the candidate tail to the current netmap
index and disarm the flag (source lines 501-504). -/
def rxNorm (st : RxImportSt) : RxImportSt :=
  if st.complete then { st with ntail := st.nm_i, complete := false } else st

/-- Status poll of the current descriptor, recorded in the trace. -/
def rxPoll (st : RxImportSt) : RxImportSt :=
  { st with trace :=
    { st.trace with status_polls := st.trace.status_polls ++ [st.nic_i] } }

/-- Import of one completed descriptor (source lines 509-523): record the
reported length, set NS_MOREFRAG when EOF is clear or arm the complete flag
when it is set, synchronize the buffer for the consumer and advance both
indices. -/
def rxProcess (lim : Nat) (descs : List IceRxDesc) (st : RxImportSt) : RxImportSt :=
  let curr := descs.getD st.nic_i default
  let staterr := curr.status_error0
  let slot := st.slots.getD st.nm_i default
  let eofClear : Bool := staterr &&& (1 <<< ICE_RX_FLEX_DESC_STATUS0_EOF_S) == 0
  let slot :=
    { slot with
      len := curr.pkt_len,
      flags := { ns_report := false, ns_buf_changed := false, ns_morefrag := eofClear } }
  let paddr := PNMB_O_paddr slot
  { st with
    slots := st.slots.set st.nm_i slot,
    trace := { st.trace with cpu_syncs := st.trace.cpu_syncs ++ [(paddr, slot.len)] },
    nm_i := nm_next st.nm_i lim,
    nic_i := nm_next st.nic_i lim,
    complete := !eofClear,
    n := st.n + 1 }

/-- Import-phase loop of ice_netmap_rxsync (source lines 494-524): starting
at the last known NIC position, poll each descriptor's DD status bit and
stop at the first descriptor hardware has not completed; record the reported
length into the user slot; a descriptor without EOF marks the slot
NS_MOREFRAG, a descriptor with EOF arms the complete flag, and the candidate
tail is advanced (to the current netmap index) at the top of the iteration
following a complete packet, so the loop that breaks still publishes a
packet completed by the last descriptor examined before it. -/
def rxImportLoop (lim : Nat) (descs : List IceRxDesc) :
    Nat → RxImportSt → Option RxImportSt
  | 0, _ => none
  | fuel+1, st =>
    let st := rxNorm st
    let st := rxPoll st
    if (descs.getD st.nic_i default).status_error0 &&&
        (1 <<< ICE_RX_FLEX_DESC_STATUS0_DD_S) = 0 then
      some st
    else
      rxImportLoop lim descs fuel (rxProcess lim descs st)

/-- Loop-carried state of the refill phase of ice_netmap_rxsync. -/
structure RxRefillSt where
  slots : List NetmapSlot
  descs : List IceRxDesc
  trace : Trace
  nm_i : Nat
  nic_i : Nat
deriving Repr, DecidableEq, Inhabited

/-- Refill of one released slot (source lines 557-567): clear
NS_BUF_CHANGED, write the resolved buffer address into the NIC descriptor,
zero its status word, synchronize for the device and advance both indices.
Only reached after the placeholder check passed. -/
def rxRefillStep (lim bufSize : Nat) (st : RxRefillSt) : RxRefillSt :=
  let slot := st.slots.getD st.nm_i default
  let paddr := PNMB_paddr slot
  let offset := nm_get_offset slot
  let slot :=
    if slot.flags.ns_buf_changed then
      { slot with flags := { slot.flags with ns_buf_changed := false } }
    else slot
  let desc0 := st.descs.getD st.nic_i default
  let desc1 := { desc0 with pkt_addr := paddr + offset, status_error0 := 0 }
  { st with
    slots := st.slots.set st.nm_i slot,
    descs := st.descs.set st.nic_i desc1,
    trace := { st.trace with dev_syncs := st.trace.dev_syncs ++ [(paddr, bufSize)] },
    nm_i := nm_next st.nm_i lim,
    nic_i := nm_next st.nic_i lim }

/-- Refill-phase loop of ice_netmap_rxsync (source lines 546-568): for every
slot userspace has released, resolve its buffer; a resolution hitting the
reserved placeholder buffer aborts (goto ring_reset) before any write for
that slot; otherwise run rxRefillStep.  The Bool of a some result is true
when the loop aborted on a bad buffer. -/
def rxRefillLoop (lim head objtotal bufSize : Nat) :
    Nat → RxRefillSt → Option (RxRefillSt × Bool)
  | 0, st => if st.nm_i = head then some (st, false) else none
  | fuel+1, st =>
    if st.nm_i = head then some (st, false)
    else if PNMB_is_base objtotal (st.slots.getD st.nm_i default) then
      some (st, true)
    else
      rxRefillLoop lim head objtotal bufSize fuel (rxRefillStep lim bufSize st)

/-- Import phase of ice_netmap_rxsync (source lines 485-533): run only when
netmap_no_pendintr or force_update holds; run the import loop from the last
known NIC position, then commit next_to_clean (if anything was imported) and
nr_hwtail (if a complete packet was seen), and clear the pending-interrupt
kflag. -/
def rxImportPhase (fuel : Nat) (s : RxState) (force_read : Bool) : Option RxState :=
  let lim := s.kring.nkr_num_slots - 1
  let force_update := force_read || s.kring.pendintr
  if s.netmap_no_pendintr || force_update then
    let nic_i := s.rxr.next_to_clean
    let nm_i := netmap_idx_n2k s.kring.nkr_num_slots s.kring.nkr_hwofs nic_i
    let st0 : RxImportSt :=
      { slots := s.kring.slots, trace := s.trace, nm_i := nm_i, nic_i := nic_i,
        ntail := lim + 1, complete := false, n := 0 }
    match rxImportLoop lim s.rxr.descs fuel st0 with
    | none => none
    | some st =>
      some { s with
        kring := { s.kring with
          slots := st.slots,
          pendintr := false,
          nr_hwtail :=
            if st.n ≠ 0 ∧ st.ntail ≤ lim then st.ntail else s.kring.nr_hwtail },
        rxr := { s.rxr with
          next_to_clean := if st.n ≠ 0 then st.nic_i else s.rxr.next_to_clean },
        trace := st.trace }
  else some s

/-- Refill phase of ice_netmap_rxsync (source lines 543-578): hand released
user slots back to the NIC; on a placeholder buffer the partial state is
returned with the reinit result and nr_hwcur untouched, otherwise nr_hwcur
advances to head and the doorbell is written one slot behind the final NIC
index. -/
def rxRefillPhase (fuel : Nat) (s1 : RxState) : Option (RxState × RxResult) :=
  let lim := s1.kring.nkr_num_slots - 1
  let head := s1.kring.rhead
  if s1.kring.nr_hwcur ≠ head then
    let nic_i := netmap_idx_k2n s1.kring.nkr_num_slots s1.kring.nkr_hwofs s1.kring.nr_hwcur
    let st0 : RxRefillSt :=
      { slots := s1.kring.slots, descs := s1.rxr.descs, trace := s1.trace,
        nm_i := s1.kring.nr_hwcur, nic_i := nic_i }
    match rxRefillLoop lim head s1.objtotal s1.bufSize fuel st0 with
    | none => none
    | some (st, bad) =>
      if bad then
        some ({ s1 with
          kring := { s1.kring with slots := st.slots },
          rxr := { s1.rxr with descs := st.descs },
          trace := st.trace }, RxResult.reinit)
      else
        let nic_f := nm_prev st.nic_i lim
        some ({ s1 with
          kring := { s1.kring with slots := st.slots, nr_hwcur := head },
          rxr := { s1.rxr with descs := st.descs, tail_reg := nic_f },
          trace := { st.trace with tail_writes := st.trace.tail_writes ++ [nic_f] } },
          RxResult.ret 0)
  else some (s1, RxResult.ret 0)

/-- Embedding of ice_netmap_rxsync: precondition, ring-presence and head
bound checks, then the import phase followed by the refill phase.
force_read models the NAF_FORCE_READ bit of the flags argument.  Returns
none only on fuel exhaustion of one of the two loops. -/
def ice_netmap_rxsync (fuel : Nat) (s : RxState) (force_read : Bool) :
    Option (RxState × RxResult) :=
  let lim := s.kring.nkr_num_slots - 1
  let head := s.kring.rhead
  if !s.running then some (s, RxResult.ret 0)
  else if !s.rxr.present || !s.rxr.desc_ok then some (s, RxResult.ret ENXIO_errno)
  else if lim < head then some (s, RxResult.reinit)
  else
    match rxImportPhase fuel s force_read with
    | none => none
    | some s1 => rxRefillPhase fuel s1

/-! General-purpose list and bit lemmas used by several claims. -/

theorem getD_set_self {α : Type} (l : List α) (i : Nat) (a d : α) (h : i < l.length) :
    (l.set i a).getD i d = a := by
  induction l generalizing i with
  | nil => simp at h
  | cons x xs ih =>
    cases i with
    | zero => rfl
    | succ n =>
      simp only [List.set_cons_succ, List.getD_cons_succ]
      exact ih n (by simpa using h)

theorem getD_set_ne {α : Type} (l : List α) (i j : Nat) (a d : α) (h : i ≠ j) :
    (l.set i a).getD j d = l.getD j d := by
  induction l generalizing i j with
  | nil => simp
  | cons x xs ih =>
    cases i with
    | zero =>
      cases j with
      | zero => exact absurd rfl h
      | succ m => rfl
    | succ n =>
      cases j with
      | zero => rfl
      | succ m =>
        simp only [List.set_cons_succ, List.getD_cons_succ]
        exact ih n m (by omega)

theorem and_two_pow_ne_zero (x i : Nat) : (x &&& 2 ^ i ≠ 0) ↔ x.testBit i = true := by
  rw [Nat.and_two_pow]
  cases h : x.testBit i
  · simp
  · simp


theorem testBit_shl34_lt (len i : Nat) (h : i < 34) :
    (len <<< 34).testBit i = false := by
  rw [Nat.testBit_shiftLeft]
  simp [Nat.not_le.2 h]

/-! Claims C7, C8, C10: precondition and ring-presence early returns. -/

/-- C7: a TX reconcile with the carrier down, and an RX reconcile on an
interface that is not administratively up, return success (0) immediately
with the whole state (descriptors, slots, indices, registers, trace)
unchanged. -/
theorem sync_precondition_noop :
    (∀ (fuel : Nat) (s : TxState), s.carrier_ok = false →
      ice_netmap_txsync fuel s = some (s, 0)) ∧
    (∀ (fuel : Nat) (s : RxState) (force_read : Bool), s.running = false →
      ice_netmap_rxsync fuel s force_read = some (s, RxResult.ret 0)) := by
  constructor
  · intro fuel s h
    simp [ice_netmap_txsync, h]
  · intro fuel s fr h
    simp [ice_netmap_rxsync, h]

/-- Sample state with the carrier down used to witness C7. -/
def txOffSample : TxState := default

/-- Sample state that is not running used to witness C7. -/
def rxOffSample : RxState := default

/-- Witness for C7 at concrete no-carrier and not-running states. -/
theorem sync_precondition_noop_witness :
    ice_netmap_txsync 5 txOffSample = some (txOffSample, 0) ∧
    ice_netmap_rxsync 5 rxOffSample true = some (rxOffSample, RxResult.ret 0) :=
  ⟨sync_precondition_noop.1 5 txOffSample rfl,
   sync_precondition_noop.2 5 rxOffSample true rfl⟩

/-- C8: when the precondition holds (TX carrier up, RX running) but the NIC
ring object is absent or its descriptor memory unallocated, both reconcilers
return ENXIO with the whole state unchanged. -/
theorem sync_ring_missing_enxio :
    (∀ (fuel : Nat) (s : TxState), s.carrier_ok = true →
      s.txr.present = false ∨ s.txr.desc_ok = false →
      ice_netmap_txsync fuel s = some (s, ENXIO_errno)) ∧
    (∀ (fuel : Nat) (s : RxState) (force_read : Bool), s.running = true →
      s.rxr.present = false ∨ s.rxr.desc_ok = false →
      ice_netmap_rxsync fuel s force_read = some (s, RxResult.ret ENXIO_errno)) := by
  constructor
  · intro fuel s h hr
    rcases hr with hr | hr <;> simp [ice_netmap_txsync, h, hr]
  · intro fuel s fr h hr
    rcases hr with hr | hr <;> simp [ice_netmap_rxsync, h, hr]

/-- Sample carrier-up state with a missing TX ring used to witness C8. -/
def txNoRingSample : TxState := { (default : TxState) with carrier_ok := true }

/-- Sample running state with unallocated RX descriptor memory used to
witness C8. -/
def rxNoRingSample : RxState :=
  { (default : RxState) with
    running := true,
    rxr := { (default : IceRxRing) with present := true } }

/-- Witness for C8 at concrete ring-missing states. -/
theorem sync_ring_missing_enxio_witness :
    ice_netmap_txsync 5 txNoRingSample = some (txNoRingSample, ENXIO_errno) ∧
    ice_netmap_rxsync 5 rxNoRingSample false = some (rxNoRingSample, RxResult.ret ENXIO_errno) :=
  ⟨sync_ring_missing_enxio.1 5 txNoRingSample rfl (Or.inl rfl),
   sync_ring_missing_enxio.2 5 rxNoRingSample false rfl (Or.inr rfl)⟩

/-- C10: the carrier / running precondition is checked before ring presence,
so with the precondition failed both reconcilers return success (0) even
when the NIC ring object is absent or uninitialized, and ENXIO (the
RingUnavailable report) is never returned in that case. -/
theorem precondition_checked_before_ring :
    (∀ (fuel : Nat) (s : TxState), s.carrier_ok = false →
      s.txr.present = false ∨ s.txr.desc_ok = false →
      ice_netmap_txsync fuel s = some (s, 0)) ∧
    (∀ (fuel : Nat) (s : RxState) (force_read : Bool), s.running = false →
      s.rxr.present = false ∨ s.rxr.desc_ok = false →
      ice_netmap_rxsync fuel s force_read = some (s, RxResult.ret 0)) ∧
    (0 : Nat) ≠ ENXIO_errno := by
  refine ⟨fun fuel s h _ => ?_, fun fuel s fr h _ => ?_, by decide⟩
  · simp [ice_netmap_txsync, h]
  · simp [ice_netmap_rxsync, h]

/-- Sample no-carrier state with a missing TX ring used to witness C10. -/
def txDownNoRingSample : TxState := default

/-- Sample not-running state with a missing RX ring used to witness C10. -/
def rxDownNoRingSample : RxState := default

/-- Witness for C10 at concrete states with both the precondition failed and
the ring missing. -/
theorem precondition_checked_before_ring_witness :
    ice_netmap_txsync 7 txDownNoRingSample = some (txDownNoRingSample, 0) ∧
    ice_netmap_rxsync 7 rxDownNoRingSample false = some (rxDownNoRingSample, RxResult.ret 0) :=
  ⟨precondition_checked_before_ring.1 7 txDownNoRingSample rfl (Or.inl rfl),
   precondition_checked_before_ring.2.1 7 rxDownNoRingSample false rfl (Or.inl rfl)⟩

theorem qw_bit_true (len b i : Nat) (hb : b.testBit i = true) :
    ((len <<< 34) ||| b) &&& 2 ^ i ≠ 0 :=
  (and_two_pow_ne_zero _ i).2 (by simp [Nat.testBit_or, hb])

theorem qw_bit_false (len b i : Nat) (hi : i < 34) (hb : b.testBit i = false) :
    ((len <<< 34) ||| b) &&& 2 ^ i = 0 := by
  rw [Nat.and_two_pow]
  simp [Nat.testBit_or, hb, testBit_shl34_lt len i hi]

/-! Claims C9 and C2: command-bit construction in the TX send phase. -/

/-- C9: a TX descriptor built by the send phase from a slot flagged
NS_MOREFRAG never carries the completion-report (RS) command bit, whatever
the slot's NS_REPORT flag and NIC-ring index, and it does not carry the
end-of-packet (EOP) bit either: both bits are written only for slots not
flagged NS_MOREFRAG. -/
theorem tx_morefrag_no_report (lim rf bufSize : Nat) (st : TxSendSt)
    (hnic : st.nic_i < st.descs.length)
    (hmf : (st.slots.getD st.nm_i default).flags.ns_morefrag = true) :
    txdHasRS ((txSendStep lim rf bufSize st).descs.getD st.nic_i default) = false ∧
    txdHasEOP ((txSendStep lim rf bufSize st).descs.getD st.nic_i default) = false := by
  have hrs : (ICE_TX_DESC_CMD_RS <<< ICE_TXD_QW1_CMD_S : Nat) = 2 ^ 5 := by decide
  have heop : (ICE_TX_DESC_CMD_EOP <<< ICE_TXD_QW1_CMD_S : Nat) = 2 ^ 4 := by decide
  simp only [txSendStep, hmf, Bool.not_true, Bool.false_eq_true, if_false]
  rw [getD_set_self st.descs st.nic_i _ default hnic]
  constructor
  · simp only [txdHasRS, hrs, decide_eq_false_iff_not, ne_eq, not_not]
    have h0 : (Nat.testBit 0 5) = false := by decide
    exact qw_bit_false _ 0 5 (by omega) h0
  · simp only [txdHasEOP, heop, decide_eq_false_iff_not, ne_eq, not_not]
    have h0 : (Nat.testBit 0 4) = false := by decide
    exact qw_bit_false _ 0 4 (by omega) h0

/-- Sample send-phase state with an NS_MOREFRAG slot used to witness C9. -/
def morefragSample : TxSendSt :=
  { slots := [{ buf_idx := 3, len := 100,
                flags := { ns_report := true, ns_buf_changed := false, ns_morefrag := true },
                ptr := 0 }],
    descs := [default], trace := default, nm_i := 0, nic_i := 0, n := 0 }

/-- Witness for C9 at a concrete NS_MOREFRAG slot whose NIC index is 0 and
whose NS_REPORT flag is set, the strongest case of the claim. -/
theorem tx_morefrag_no_report_witness :
    txdHasRS ((txSendStep 0 0 2048 morefragSample).descs.getD 0 default) = false ∧
    txdHasEOP ((txSendStep 0 0 2048 morefragSample).descs.getD 0 default) = false :=
  tx_morefrag_no_report 0 0 2048 morefragSample (by decide) (by decide)

/-- Slot list for the C2 report-throttling scenario: eight single-descriptor
packets with no flags set. -/
def c2Slots : List NetmapSlot :=
  [{ buf_idx := 1, len := 60, flags := default, ptr := 0 },
   { buf_idx := 2, len := 60, flags := default, ptr := 0 },
   { buf_idx := 3, len := 60, flags := default, ptr := 0 },
   { buf_idx := 4, len := 60, flags := default, ptr := 0 },
   { buf_idx := 5, len := 60, flags := default, ptr := 0 },
   { buf_idx := 6, len := 60, flags := default, ptr := 0 },
   { buf_idx := 7, len := 60, flags := default, ptr := 0 },
   { buf_idx := 8, len := 60, flags := default, ptr := 0 }]

/-- Initial state of the C2 scenario: an 8-slot TX ring with 7 packets
queued (head = 7), clean NIC ring, zero offset. -/
def c2s0 : TxState :=
  { carrier_ok := true, bufSize := 2048,
    kring := { nkr_num_slots := 8, nkr_hwofs := 0, nr_hwcur := 0, nr_hwtail := 7,
               rhead := 7, pendintr := false, slots := c2Slots,
               tx := true, hwbuf_len := 0, buf_align := 0 },
    txr := { present := true, desc_ok := true, descs := List.replicate 8 default,
             hwtail := 0, next_to_clean := 0, tail_reg := 0 },
    trace := default }

/-- State after the first C2 reconcile, with the producer then queueing the
eighth packet (head wraps to 0). -/
def c2s1 : TxState :=
  match ice_netmap_txsync 16 c2s0 with
  | some p => { p.1 with kring := { p.1.kring with rhead := 0 } }
  | none => default

/-- Final state of the C2 scenario after the second reconcile completes the
full ring revolution of 8 sent packets. -/
def c2After : TxState :=
  match ice_netmap_txsync 16 c2s1 with
  | some p => p.1
  | none => default

/-- C2: in the send phase the RS (completion-report) bit of the descriptor
built for a slot not flagged NS_MOREFRAG is set exactly when the slot is
flagged NS_REPORT, or its NIC-ring index is 0, or its NIC-ring index equals
half the slot count (nkr_num_slots >> 1); and across the full 8-slot ring
revolution of the concrete scenario with no NS_REPORT flags, exactly 2
descriptors (NIC positions 0 and 4) end up with the RS bit set. -/
theorem tx_report_bit_rule :
    (∀ (lim numSlots bufSize : Nat) (st : TxSendSt),
      st.nic_i < st.descs.length →
      (st.slots.getD st.nm_i default).flags.ns_morefrag = false →
      txdHasRS ((txSendStep lim (numSlots >>> 1) bufSize st).descs.getD st.nic_i default) =
        ((st.slots.getD st.nm_i default).flags.ns_report || decide (st.nic_i = 0) ||
          decide (st.nic_i = numSlots >>> 1))) ∧
    countRS c2After.txr.descs = 2 ∧
    txdHasRS (c2After.txr.descs.getD 0 default) = true ∧
    txdHasRS (c2After.txr.descs.getD 4 default) = true := by
  refine ⟨?_, by decide, by decide, by decide⟩
  intro lim numSlots bufSize st hnic hmf
  have hrs : (ICE_TX_DESC_CMD_RS <<< ICE_TXD_QW1_CMD_S : Nat) = 2 ^ 5 := by decide
  simp only [txSendStep, hmf, Bool.not_false, if_true]
  rw [getD_set_self st.descs st.nic_i _ default hnic]
  cases hcond : ((st.slots.getD st.nm_i default).flags.ns_report ||
      decide (st.nic_i = 0) || decide (st.nic_i = numSlots >>> 1))
  · simp only [hcond, Bool.false_eq_true, if_false]
    simp only [txdHasRS, hrs, decide_eq_false_iff_not, ne_eq, not_not]
    have hb : Nat.testBit ((ICE_TX_DESC_CMD_EOP <<< ICE_TXD_QW1_CMD_S) ||| 0) 5 = false := by
      decide
    exact qw_bit_false _ _ 5 (by omega) hb
  · simp only [hcond, if_true]
    simp only [txdHasRS, hrs, decide_eq_true_eq, ne_eq]
    have hb : Nat.testBit ((ICE_TX_DESC_CMD_EOP <<< ICE_TXD_QW1_CMD_S) |||
        (ICE_TX_DESC_CMD_RS <<< ICE_TXD_QW1_CMD_S)) 5 = true := by decide
    exact qw_bit_true _ _ 5 hb

/-- Sample send-phase state used to witness the general part of C2: an
NS_REPORT-free slot going to NIC position 4 of an 8-slot ring, which is half
the slot count and therefore must get the RS bit. -/
def c2StepSample : TxSendSt :=
  { slots := List.replicate 8 { buf_idx := 2, len := 60, flags := default, ptr := 0 },
    descs := List.replicate 8 default, trace := default, nm_i := 4, nic_i := 4, n := 4 }

/-- Witness for C2 at a concrete slot whose NIC index is half the ring. -/
theorem tx_report_bit_rule_witness :
    txdHasRS ((txSendStep 7 (8 >>> 1) 2048 c2StepSample).descs.getD 4 default) =
      ((c2StepSample.slots.getD 4 default).flags.ns_report || decide ((4 : Nat) = 0) ||
        decide ((4 : Nat) = 8 >>> 1)) :=
  tx_report_bit_rule.1 7 8 2048 c2StepSample (by decide) (by decide)

/-! Ring-index arithmetic: forward distance and its interaction with
nm_next, nm_prev and the index translator. -/

/-- Forward distance from i to j on a ring of N slots: the number of nm_next
steps leading from i to j when both are valid indices. -/
def ringDist (N i j : Nat) : Nat := if i ≤ j then j - i else N + j - i

theorem ringDist_self (N i : Nat) : ringDist N i i = 0 := by
  simp [ringDist]

theorem ringDist_lt (N i j : Nat) (hi : i < N) (hj : j < N) : ringDist N i j < N := by
  unfold ringDist; split <;> omega

theorem ringDist_eq_zero (N i j : Nat) (hi : i < N) (hj : j < N)
    (h : ringDist N i j = 0) : i = j := by
  unfold ringDist at h; split at h <;> omega

theorem nm_next_lt (N i : Nat) (hi : i < N) : nm_next i (N - 1) < N := by
  unfold nm_next; split <;> omega

theorem nm_prev_lt (N i : Nat) (hi : i < N) : nm_prev i (N - 1) < N := by
  unfold nm_prev; split <;> omega

theorem nm_prev_nm_next (N i : Nat) (hi : i < N) :
    nm_prev (nm_next i (N - 1)) (N - 1) = i := by
  unfold nm_next nm_prev
  by_cases h : i = N - 1
  · simp [h]
  · simp [h]

theorem ringDist_next (N i j : Nat) (hi : i < N) (hj : j < N) (hne : i ≠ j) :
    ringDist N (nm_next i (N - 1)) j + 1 = ringDist N i j := by
  unfold ringDist nm_next; split_ifs <;> omega

theorem ringDist_prev (N i j : Nat) (hi : i < N) (hj : j < N) :
    ringDist N (nm_prev i (N - 1)) (nm_prev j (N - 1)) = ringDist N i j := by
  unfold ringDist nm_prev; split_ifs <;> omega

theorem mod_two_span (a N : Nat) (hN : 0 < N) (h : a < 2 * N) :
    a % N = if a < N then a else a - N := by
  split
  · exact Nat.mod_eq_of_lt (by omega)
  · rw [Nat.mod_eq_sub_mod (by omega)]
    exact Nat.mod_eq_of_lt (by omega)

theorem netmap_idx_n2k_lt (N o i : Nat) (hN : 0 < N) : netmap_idx_n2k N o i < N :=
  Nat.mod_lt _ hN

theorem netmap_idx_k2n_lt (N o i : Nat) (hN : 0 < N) : netmap_idx_k2n N o i < N :=
  Nat.mod_lt _ hN

theorem netmap_idx_n2k_closed (N o i : Nat) (hi : i < N) (ho : o < N) :
    netmap_idx_n2k N o i = if i + o < N then i + o else i + o - N := by
  unfold netmap_idx_n2k
  exact mod_two_span (i + o) N (by omega) (by omega)

theorem netmap_idx_k2n_closed (N o i : Nat) (hi : i < N) (ho : o < N) :
    netmap_idx_k2n N o i = if i < o then i + N - o else i - o := by
  unfold netmap_idx_k2n
  rw [Nat.mod_eq_of_lt ho]
  rw [mod_two_span (i + (N - o)) N (by omega) (by omega)]
  split_ifs <;> omega

theorem ringDist_n2k (N o i j : Nat) (hi : i < N) (hj : j < N) (ho : o < N) :
    ringDist N (netmap_idx_n2k N o i) (netmap_idx_n2k N o j) = ringDist N i j := by
  rw [netmap_idx_n2k_closed N o i hi ho, netmap_idx_n2k_closed N o j hj ho]
  unfold ringDist
  split_ifs <;> omega

theorem netmap_idx_k2n_n2k (N o i : Nat) (hi : i < N) (ho : o < N) :
    netmap_idx_n2k N o (netmap_idx_k2n N o i) = i := by
  rw [netmap_idx_k2n_closed N o i hi ho]
  split <;> rw [netmap_idx_n2k_closed N o _ (by omega) ho] <;> split_ifs <;> omega

theorem netmap_idx_k2n_nm_next (N o i : Nat) (hi : i < N) (ho : o < N) :
    netmap_idx_k2n N o (nm_next i (N - 1)) = nm_next (netmap_idx_k2n N o i) (N - 1) := by
  have h1 := netmap_idx_k2n_closed N o i hi ho
  have h2 := netmap_idx_k2n_closed N o (nm_next i (N - 1)) (nm_next_lt N i hi) ho
  unfold nm_next at h2 ⊢
  rw [h2, h1]
  split_ifs <;> omega

theorem netmap_idx_n2k_nm_next (N o i : Nat) (hi : i < N) (ho : o < N) :
    netmap_idx_n2k N o (nm_next i (N - 1)) = nm_next (netmap_idx_n2k N o i) (N - 1) := by
  have h1 := netmap_idx_n2k_closed N o i hi ho
  have h2 := netmap_idx_n2k_closed N o (nm_next i (N - 1)) (nm_next_lt N i hi) ho
  unfold nm_next at h2 ⊢
  rw [h2, h1]
  split_ifs <;> omega

/-! Claim C4: reclaim exactness of the TX reconciler. -/

theorem txReclaimLoop_spec (lim target : Nat) (slots : List NetmapSlot) :
    ∀ (fuel tosync : Nat) (tr : Trace),
      tosync < lim + 1 → target < lim + 1 →
      ringDist (lim + 1) tosync target ≤ fuel →
      ∃ tr', txReclaimLoop lim target slots fuel tr tosync = some tr' ∧
        tr'.cpu_syncs.length = tr.cpu_syncs.length + ringDist (lim + 1) tosync target ∧
        tr'.dev_syncs = tr.dev_syncs ∧ tr'.tail_writes = tr.tail_writes ∧
        tr'.status_polls = tr.status_polls := by
  intro fuel
  induction fuel with
  | zero =>
    intro tosync tr h1 h2 h3
    have he : tosync = target :=
      ringDist_eq_zero (lim + 1) tosync target h1 h2 (by omega)
    refine ⟨tr, ?_, ?_, rfl, rfl, rfl⟩
    · simp [txReclaimLoop, he]
    · simp [he, ringDist_self]
  | succ fuel ih =>
    intro tosync tr h1 h2 h3
    by_cases he : tosync = target
    · refine ⟨tr, ?_, ?_, rfl, rfl, rfl⟩
      · simp [txReclaimLoop, he]
      · simp [he, ringDist_self]
    · have hstep : ringDist (lim + 1) (nm_next tosync ((lim + 1) - 1)) target + 1 =
          ringDist (lim + 1) tosync target :=
        ringDist_next (lim + 1) tosync target h1 h2 he
      have hlt : nm_next tosync ((lim + 1) - 1) < lim + 1 := nm_next_lt (lim + 1) tosync h1
      simp only [Nat.add_sub_cancel] at hstep hlt
      obtain ⟨tr', heq, hlen, hdev, htw, hsp⟩ :=
        ih (nm_next tosync lim)
          { tr with cpu_syncs := tr.cpu_syncs ++
              [(PNMB_O_paddr (slots.getD tosync default), (slots.getD tosync default).len)] }
          hlt h2 (by omega)
      refine ⟨tr', ?_, ?_, hdev, htw, hsp⟩
      · simp only [txReclaimLoop]
        rw [if_neg he]
        exact heq
      · simp at hlen
        omega

/-- C4: in the reclaim phase of ice_netmap_txsync (send phase idle since
nr_hwcur = rhead), when the hardware completion position read from the
trailing sentinel differs from the recorded cleaned position by k ring
slots, exactly k netmap_sync_map_cpu synchronizations are issued for
user-ring slots, nr_hwtail advances by exactly k, and the new nr_hwtail is
one position behind the translated new hardware position; next_to_clean is
updated to the sentinel value.  The hypothesis hinv is the steady-state
relation between nr_hwtail and next_to_clean that every previous reclaim
establishes. -/
theorem tx_reclaim_exact (fuel : Nat) (s : TxState)
    (hcar : s.carrier_ok = true) (hp : s.txr.present = true) (hd : s.txr.desc_ok = true)
    (hcur : s.kring.nr_hwcur = s.kring.rhead)
    (hofs : s.kring.nkr_hwofs < s.kring.nkr_num_slots)
    (hntc : s.txr.next_to_clean < s.kring.nkr_num_slots)
    (hddw : s.txr.hwtail < s.kring.nkr_num_slots)
    (htl : s.kring.nr_hwtail < s.kring.nkr_num_slots)
    (hinv : nm_next s.kring.nr_hwtail (s.kring.nkr_num_slots - 1) =
      netmap_idx_n2k s.kring.nkr_num_slots s.kring.nkr_hwofs s.txr.next_to_clean)
    (hfuel : ringDist s.kring.nkr_num_slots s.txr.next_to_clean s.txr.hwtail ≤ fuel) :
    ∃ s', ice_netmap_txsync fuel s = some (s', 0) ∧
      s'.trace.cpu_syncs.length = s.trace.cpu_syncs.length +
        ringDist s.kring.nkr_num_slots s.txr.next_to_clean s.txr.hwtail ∧
      s'.kring.nr_hwtail =
        nm_prev (netmap_idx_n2k s.kring.nkr_num_slots s.kring.nkr_hwofs s.txr.hwtail)
          (s.kring.nkr_num_slots - 1) ∧
      ringDist s.kring.nkr_num_slots s.kring.nr_hwtail s'.kring.nr_hwtail =
        ringDist s.kring.nkr_num_slots s.txr.next_to_clean s.txr.hwtail ∧
      s'.txr.next_to_clean = s.txr.hwtail := by
  have hN : 0 < s.kring.nkr_num_slots := by omega
  have hn2k_ntc : netmap_idx_n2k s.kring.nkr_num_slots s.kring.nkr_hwofs s.txr.next_to_clean <
      s.kring.nkr_num_slots := netmap_idx_n2k_lt _ _ _ hN
  have hn2k_ddw : netmap_idx_n2k s.kring.nkr_num_slots s.kring.nkr_hwofs s.txr.hwtail <
      s.kring.nkr_num_slots := netmap_idx_n2k_lt _ _ _ hN
  have htl_eq : s.kring.nr_hwtail =
      nm_prev (netmap_idx_n2k s.kring.nkr_num_slots s.kring.nkr_hwofs s.txr.next_to_clean)
        (s.kring.nkr_num_slots - 1) := by
    rw [← hinv, nm_prev_nm_next _ _ htl]
  have hopen : ice_netmap_txsync fuel s = txReclaimPhase fuel s := by
    simp [ice_netmap_txsync, hcar, hp, hd, txSendPhase, hcur]
  by_cases hk : s.txr.hwtail = s.txr.next_to_clean
  · refine ⟨s, ?_, ?_, ?_, ?_, by rw [hk]⟩
    · rw [hopen]
      simp [txReclaimPhase, ice_netmap_read_hwtail, hk]
    · simp [hk, ringDist_self]
    · rw [hk, ← htl_eq]
    · rw [hk, ringDist_self, ringDist_self]
  · obtain ⟨tr', heq, hlen, hdev, htw, hsp⟩ :=
      txReclaimLoop_spec (s.kring.nkr_num_slots - 1)
        (netmap_idx_n2k s.kring.nkr_num_slots s.kring.nkr_hwofs s.txr.hwtail)
        s.kring.slots fuel
        (nm_next s.kring.nr_hwtail (s.kring.nkr_num_slots - 1)) s.trace
        (by simpa [Nat.sub_add_cancel hN] using nm_next_lt _ _ htl)
        (by simpa [Nat.sub_add_cancel hN] using hn2k_ddw)
        (by
          rw [Nat.sub_add_cancel hN, hinv,
            ringDist_n2k _ _ _ _ hntc hddw hofs]
          exact hfuel)
    have hdist : ringDist (s.kring.nkr_num_slots - 1 + 1)
        (nm_next s.kring.nr_hwtail (s.kring.nkr_num_slots - 1))
        (netmap_idx_n2k s.kring.nkr_num_slots s.kring.nkr_hwofs s.txr.hwtail) =
        ringDist s.kring.nkr_num_slots s.txr.next_to_clean s.txr.hwtail := by
      rw [Nat.sub_add_cancel hN, hinv, ringDist_n2k _ _ _ _ hntc hddw hofs]
    refine Exists.intro
      { s with
        kring := { s.kring with nr_hwtail := nm_prev (netmap_idx_n2k s.kring.nkr_num_slots s.kring.nkr_hwofs s.txr.hwtail) (s.kring.nkr_num_slots - 1) },
        txr := { s.txr with next_to_clean := s.txr.hwtail },
        trace := tr' }
      ⟨?_, ?_, rfl, ?_, rfl⟩
    · rw [hopen]
      simp only [txReclaimPhase, ice_netmap_read_hwtail]
      rw [if_pos hk]
      rw [heq]
    · simpa [hdist] using hlen
    · rw [htl_eq, ringDist_prev _ _ _ hn2k_ntc hn2k_ddw]
      exact ringDist_n2k _ _ _ _ hntc hddw hofs

/-- Sample TX state used to witness C4: a 4-slot ring with translation
offset 1, cleaned position 0, steady-state nr_hwtail 0, and a hardware
completion sentinel that advanced to 2 (so k = 2). -/
def c4Sample : TxState :=
  { carrier_ok := true, bufSize := 2048,
    kring := { nkr_num_slots := 4, nkr_hwofs := 1, nr_hwcur := 0, nr_hwtail := 0,
               rhead := 0, pendintr := false,
               slots := List.replicate 4 { buf_idx := 3, len := 50, flags := default, ptr := 0 },
               tx := true, hwbuf_len := 0, buf_align := 0 },
    txr := { present := true, desc_ok := true, descs := List.replicate 4 default,
             hwtail := 2, next_to_clean := 0, tail_reg := 0 },
    trace := default }

/-- Witness for C4 at the concrete state c4Sample, where the completion
position advanced by k = 2 slots. -/
theorem tx_reclaim_exact_witness :
    ∃ s', ice_netmap_txsync 8 c4Sample = some (s', 0) ∧
      s'.trace.cpu_syncs.length = c4Sample.trace.cpu_syncs.length +
        ringDist c4Sample.kring.nkr_num_slots c4Sample.txr.next_to_clean c4Sample.txr.hwtail ∧
      s'.kring.nr_hwtail =
        nm_prev (netmap_idx_n2k c4Sample.kring.nkr_num_slots c4Sample.kring.nkr_hwofs
          c4Sample.txr.hwtail) (c4Sample.kring.nkr_num_slots - 1) ∧
      ringDist c4Sample.kring.nkr_num_slots c4Sample.kring.nr_hwtail s'.kring.nr_hwtail =
        ringDist c4Sample.kring.nkr_num_slots c4Sample.txr.next_to_clean c4Sample.txr.hwtail ∧
      s'.txr.next_to_clean = c4Sample.txr.hwtail :=
  tx_reclaim_exact 8 c4Sample rfl rfl rfl rfl (by decide) (by decide) (by decide)
    (by decide) (by decide) (by decide)

/-! Claim C5: the import phase runs only under netmap_no_pendintr or
force_update; what an invocation with both false can still touch. -/

theorem set_of_length_le {α : Type} (l : List α) (i : Nat) (a : α) (h : l.length ≤ i) :
    l.set i a = l := by
  induction l generalizing i with
  | nil => rfl
  | cons x xs ih =>
    cases i with
    | zero => simp at h
    | succ n =>
      simp only [List.set_cons_succ, List.cons.injEq, true_and]
      exact ih n (by simpa using h)

/-- Fields of a slot that the refill loop never modifies, stated for every
index: length, NS_REPORT, NS_MOREFRAG and the buffer handle; the trace
status polls and cpu syncs are also untouched by refill. -/
theorem rxRefillStep_preserve (lim bufSize : Nat) (st : RxRefillSt) (j : Nat) :
    (rxRefillStep lim bufSize st).trace.status_polls = st.trace.status_polls ∧
    (rxRefillStep lim bufSize st).trace.cpu_syncs = st.trace.cpu_syncs ∧
    ((rxRefillStep lim bufSize st).slots.getD j default).len =
      (st.slots.getD j default).len ∧
    ((rxRefillStep lim bufSize st).slots.getD j default).buf_idx =
      (st.slots.getD j default).buf_idx ∧
    ((rxRefillStep lim bufSize st).slots.getD j default).flags.ns_report =
      (st.slots.getD j default).flags.ns_report ∧
    ((rxRefillStep lim bufSize st).slots.getD j default).flags.ns_morefrag =
      (st.slots.getD j default).flags.ns_morefrag := by
  simp only [rxRefillStep]
  by_cases hij : st.nm_i = j
  · subst hij
    by_cases hlen : st.nm_i < st.slots.length
    · rw [getD_set_self _ _ _ _ hlen]
      split <;> simp
    · rw [set_of_length_le _ _ _ (by omega)]
      simp
  · rw [getD_set_ne _ _ _ _ _ hij]
    simp

/-- Fields of a slot that the refill loop never modifies, stated for every
index: length, NS_REPORT, NS_MOREFRAG and the buffer handle; the trace
status polls and cpu syncs are also untouched by refill. -/
theorem rxRefillLoop_preserve (lim head objtotal bufSize : Nat) :
    ∀ (fuel : Nat) (st st' : RxRefillSt) (bad : Bool),
      rxRefillLoop lim head objtotal bufSize fuel st = some (st', bad) →
      st'.trace.status_polls = st.trace.status_polls ∧
      st'.trace.cpu_syncs = st.trace.cpu_syncs ∧
      (∀ j, ((st'.slots.getD j default).len = (st.slots.getD j default).len ∧
        (st'.slots.getD j default).buf_idx = (st.slots.getD j default).buf_idx) ∧
        (st'.slots.getD j default).flags.ns_report = (st.slots.getD j default).flags.ns_report ∧
        (st'.slots.getD j default).flags.ns_morefrag =
          (st.slots.getD j default).flags.ns_morefrag) := by
  intro fuel
  induction fuel with
  | zero =>
    intro st st' bad h
    simp only [rxRefillLoop] at h
    split at h
    · simp only [Option.some.injEq, Prod.mk.injEq] at h
      obtain ⟨h1, h2⟩ := h
      subst h1
      exact ⟨rfl, rfl, fun j => ⟨⟨rfl, rfl⟩, rfl, rfl⟩⟩
    · exact absurd h (by simp)
  | succ fuel ih =>
    intro st st' bad h
    simp only [rxRefillLoop] at h
    split at h
    · simp only [Option.some.injEq, Prod.mk.injEq] at h
      obtain ⟨h1, h2⟩ := h
      subst h1
      exact ⟨rfl, rfl, fun j => ⟨⟨rfl, rfl⟩, rfl, rfl⟩⟩
    · split at h
      · simp only [Option.some.injEq, Prod.mk.injEq] at h
        obtain ⟨h1, h2⟩ := h
        subst h1
        exact ⟨rfl, rfl, fun j => ⟨⟨rfl, rfl⟩, rfl, rfl⟩⟩
      · obtain ⟨hp1, hp2, hp3⟩ := ih _ _ _ h
        obtain ⟨hs1, hs2, _, _, _, _⟩ := rxRefillStep_preserve lim bufSize st 0
        refine ⟨hp1.trans hs1, hp2.trans hs2, fun j => ?_⟩
        obtain ⟨⟨hq1, hq2⟩, hq3, hq4⟩ := hp3 j
        obtain ⟨_, _, hr1, hr2, hr3, hr4⟩ := rxRefillStep_preserve lim bufSize st j
        exact ⟨⟨hq1.trans hr1, hq2.trans hr2⟩, hq3.trans hr3, hq4.trans hr4⟩

/-- Preservation through the whole refill phase: nr_hwtail, next_to_clean,
the pending-interrupt kflag, the status-poll trace, slot lengths and the
NS_REPORT / NS_MOREFRAG flags are never modified by it. -/
theorem rxRefillPhase_preserve (fuel : Nat) (s1 s' : RxState) (r : RxResult)
    (h : rxRefillPhase fuel s1 = some (s', r)) :
    s'.trace.status_polls = s1.trace.status_polls ∧
    s'.kring.nr_hwtail = s1.kring.nr_hwtail ∧
    s'.rxr.next_to_clean = s1.rxr.next_to_clean ∧
    s'.kring.pendintr = s1.kring.pendintr ∧
    (∀ j, (s'.kring.slots.getD j default).len = (s1.kring.slots.getD j default).len ∧
      (s'.kring.slots.getD j default).flags.ns_report =
        (s1.kring.slots.getD j default).flags.ns_report ∧
      (s'.kring.slots.getD j default).flags.ns_morefrag =
        (s1.kring.slots.getD j default).flags.ns_morefrag) := by
  simp only [rxRefillPhase] at h
  split at h
  · cases hloop : rxRefillLoop (s1.kring.nkr_num_slots - 1) s1.kring.rhead s1.objtotal
        s1.bufSize fuel
        { slots := s1.kring.slots, descs := s1.rxr.descs, trace := s1.trace,
          nm_i := s1.kring.nr_hwcur,
          nic_i := netmap_idx_k2n s1.kring.nkr_num_slots s1.kring.nkr_hwofs s1.kring.nr_hwcur }
      with
    | none => rw [hloop] at h; exact absurd h (by simp)
    | some p =>
      rw [hloop] at h
      obtain ⟨st, bad⟩ := p
      obtain ⟨hsp, hcs, hslots⟩ := rxRefillLoop_preserve _ _ _ _ _ _ _ _ hloop
      cases bad with
      | true =>
        simp only [if_true] at h
        simp only [Option.some.injEq, Prod.mk.injEq] at h
        obtain ⟨h1, h2⟩ := h
        subst h1
        exact ⟨hsp, rfl, rfl, rfl, fun j => ⟨(hslots j).1.1, (hslots j).2.1, (hslots j).2.2⟩⟩
      | false =>
        simp only [Bool.false_eq_true, if_false] at h
        simp only [Option.some.injEq, Prod.mk.injEq] at h
        obtain ⟨h1, h2⟩ := h
        subst h1
        exact ⟨hsp, rfl, rfl, rfl, fun j => ⟨(hslots j).1.1, (hslots j).2.1, (hslots j).2.2⟩⟩
  · simp only [Option.some.injEq, Prod.mk.injEq] at h
    obtain ⟨h1, h2⟩ := h
    subst h1
    exact ⟨rfl, rfl, rfl, rfl, fun j => ⟨rfl, rfl, rfl⟩⟩

/-- Sample RX state for C5: neither import condition holds
(netmap_no_pendintr false, pending-interrupt kflag clear, and the call is
made without NAF_FORCE_READ), while userspace has released slot 0 (head = 1)
and that slot carries NS_BUF_CHANGED. -/
def c5Sample : RxState :=
  { running := true, netmap_no_pendintr := false, objtotal := 32, bufSize := 2048,
    kring := { nkr_num_slots := 8, nkr_hwofs := 0, nr_hwcur := 0, nr_hwtail := 0,
               rhead := 1, pendintr := false,
               slots :=
                 { buf_idx := 1, len := 64,
                   flags := { ns_report := false, ns_buf_changed := true,
                              ns_morefrag := false }, ptr := 0 } ::
                 List.replicate 7 { buf_idx := 2, len := 64, flags := default, ptr := 0 },
               tx := false, hwbuf_len := 0, buf_align := 0 },
    rxr := { present := true, desc_ok := true, descs := List.replicate 8 default,
             next_to_clean := 0, tail_reg := 0 },
    trace := default }

/-- State after the C5 invocation. -/
def c5After : RxState :=
  match ice_netmap_rxsync 16 c5Sample false with
  | some p => p.1
  | none => default

/-- C5 counterexample: with neither import condition holding the invocation
still updates slot flags — the refill phase clears NS_BUF_CHANGED on slot 0
— so the claim that no slot flags are updated in that invocation is false. -/
theorem rx_import_skip_cex :
    c5Sample.netmap_no_pendintr = false ∧ c5Sample.kring.pendintr = false ∧
    ice_netmap_rxsync 16 c5Sample false = some (c5After, RxResult.ret 0) ∧
    (c5After.kring.slots.getD 0 default).flags ≠ (c5Sample.kring.slots.getD 0 default).flags := by
  decide

/-- C5 (amended): when the invocation does not carry NAF_FORCE_READ, the
pending-interrupt kflag is clear and netmap_no_pendintr is off, the import
phase of ice_netmap_rxsync is skipped entirely: no descriptor status bit is
polled, nr_hwtail, next_to_clean and the pending-interrupt kflag keep their
values, and no slot length or NS_REPORT / NS_MOREFRAG flag is updated — the
independent refill phase may still clear NS_BUF_CHANGED on released slots. -/
theorem rx_import_skip (fuel : Nat) (s s' : RxState) (r : RxResult)
    (hrun : s.running = true) (hp : s.rxr.present = true) (hd : s.rxr.desc_ok = true)
    (hhead : s.kring.rhead ≤ s.kring.nkr_num_slots - 1)
    (hnp : s.netmap_no_pendintr = false) (hpi : s.kring.pendintr = false)
    (h : ice_netmap_rxsync fuel s false = some (s', r)) :
    s'.trace.status_polls = s.trace.status_polls ∧
    s'.kring.nr_hwtail = s.kring.nr_hwtail ∧
    s'.rxr.next_to_clean = s.rxr.next_to_clean ∧
    s'.kring.pendintr = s.kring.pendintr ∧
    (∀ j, (s'.kring.slots.getD j default).len = (s.kring.slots.getD j default).len ∧
      (s'.kring.slots.getD j default).flags.ns_report =
        (s.kring.slots.getD j default).flags.ns_report ∧
      (s'.kring.slots.getD j default).flags.ns_morefrag =
        (s.kring.slots.getD j default).flags.ns_morefrag) := by
  have hskip : rxImportPhase fuel s false = some s := by
    simp [rxImportPhase, hnp, hpi]
  simp only [ice_netmap_rxsync, hrun, hp, hd, Bool.not_true, Bool.false_eq_true, if_false,
    Bool.or_self, Bool.false_or] at h
  rw [if_neg (by omega)] at h
  rw [hskip] at h
  exact rxRefillPhase_preserve fuel s s' r h

/-- Witness for the amended C5 theorem at the concrete state c5Sample. -/
theorem rx_import_skip_witness :
    c5After.trace.status_polls = c5Sample.trace.status_polls ∧
    c5After.kring.nr_hwtail = c5Sample.kring.nr_hwtail ∧
    c5After.rxr.next_to_clean = c5Sample.rxr.next_to_clean ∧
    c5After.kring.pendintr = c5Sample.kring.pendintr := by
  obtain ⟨h1, h2, h3, h4, h5⟩ :=
    rx_import_skip 16 c5Sample c5After (RxResult.ret 0) rfl rfl rfl (by decide) rfl rfl
      (by decide)
  exact ⟨h1, h2, h3, h4⟩

/-! Claim C3: reinit result of the RX reconciler, characterized by the head
bound and placeholder buffers in the refill range. -/

/-- Ring indices visited walking from i toward head by nm_next, fuel-bounded
(the refill range nr_hwcur .. rhead excluded). -/
def ringWalk (lim head : Nat) : Nat → Nat → List Nat
  | 0, _ => []
  | fuel+1, i => if i = head then [] else i :: ringWalk lim head fuel (nm_next i lim)

theorem any_congr {α : Type} (l : List α) (f g : α → Bool) (h : ∀ a, f a = g a) :
    l.any f = l.any g := by
  have : f = g := funext h
  rw [this]

theorem PNMB_is_base_congr (objtotal : Nat) (a b : NetmapSlot) (h : a.buf_idx = b.buf_idx) :
    PNMB_is_base objtotal a = PNMB_is_base objtotal b := by
  simp [PNMB_is_base, h]

theorem ringDist_next_self (N x : Nat) (hx : x < N) :
    ringDist N (nm_next x (N - 1)) x = N - 1 := by
  unfold ringDist nm_next; split_ifs <;> omega

theorem ringDist_inj (N a b1 b2 : Nat) (ha : a < N) (hb1 : b1 < N) (hb2 : b2 < N)
    (h : ringDist N a b1 = ringDist N a b2) : b1 = b2 := by
  unfold ringDist at h; split_ifs at h <;> omega

theorem ringDist_k2n (N o i j : Nat) (hi : i < N) (hj : j < N) (ho : o < N) :
    ringDist N (netmap_idx_k2n N o i) (netmap_idx_k2n N o j) = ringDist N i j := by
  rw [netmap_idx_k2n_closed N o i hi ho, netmap_idx_k2n_closed N o j hj ho]
  unfold ringDist
  split_ifs <;> omega

theorem ringWalk_mem_of (N head : Nat) :
    ∀ (fuel i j : Nat), i < N → j < N → head < N →
      ringDist N i j < ringDist N i head → ringDist N i j < fuel →
      j ∈ ringWalk (N - 1) head fuel i := by
  intro fuel
  induction fuel with
  | zero => intro i j hi hj hh h1 h2; omega
  | succ fuel ih =>
    intro i j hi hj hh h1 h2
    have hne : i ≠ head := by
      intro he
      rw [he, ringDist_self] at h1
      omega
    simp only [ringWalk, if_neg hne]
    by_cases hij : j = i
    · exact hij ▸ List.mem_cons_self _ _
    · have hstep := ringDist_next N i j hi hj (fun he => hij he.symm)
      have hsteph := ringDist_next N i head hi hh hne
      refine List.mem_cons_of_mem _ (ih (nm_next i (N - 1)) j (nm_next_lt N i hi) hj hh
        (by omega) (by omega))

/-- The import loop never changes any slot buffer handle. -/
theorem rxNorm_slots (st : RxImportSt) : (rxNorm st).slots = st.slots := by
  unfold rxNorm; split <;> rfl

theorem rxPoll_slots (st : RxImportSt) : (rxPoll st).slots = st.slots := rfl

theorem rxProcess_preserve_buf (lim : Nat) (descs : List IceRxDesc) (st : RxImportSt) (j : Nat) :
    ((rxProcess lim descs st).slots.getD j default).buf_idx =
      (st.slots.getD j default).buf_idx := by
  simp only [rxProcess]
  by_cases hij : st.nm_i = j
  · subst hij
    by_cases hlen : st.nm_i < st.slots.length
    · rw [getD_set_self _ _ _ _ hlen]
    · rw [set_of_length_le _ _ _ (by omega)]
  · rw [getD_set_ne _ _ _ _ _ hij]

theorem rxImportLoop_preserve_buf (lim : Nat) (descs : List IceRxDesc) :
    ∀ (fuel : Nat) (st st' : RxImportSt), rxImportLoop lim descs fuel st = some st' →
      ∀ j, (st'.slots.getD j default).buf_idx = (st.slots.getD j default).buf_idx := by
  intro fuel
  induction fuel with
  | zero => intro st st' h; exact absurd h (by simp [rxImportLoop])
  | succ fuel ih =>
    intro st st' h j
    simp only [rxImportLoop] at h
    split at h
    · simp only [Option.some.injEq] at h
      subst h
      rw [rxPoll_slots, rxNorm_slots]
    · have hj := ih _ _ h j
      rw [hj, rxProcess_preserve_buf, rxPoll_slots, rxNorm_slots]

/-- The import phase never changes the kring geometry, the cursor, the head,
the adapter configuration, the ring-presence bits, the descriptor array of
the NIC ring, or any slot buffer handle. -/
theorem rxImportPhase_preserve (fuel : Nat) (s : RxState) (fr : Bool) (s1 : RxState)
    (h : rxImportPhase fuel s fr = some s1) :
    s1.kring.nr_hwcur = s.kring.nr_hwcur ∧
    s1.kring.rhead = s.kring.rhead ∧
    s1.kring.nkr_num_slots = s.kring.nkr_num_slots ∧
    s1.kring.nkr_hwofs = s.kring.nkr_hwofs ∧
    s1.objtotal = s.objtotal ∧
    s1.bufSize = s.bufSize ∧
    s1.rxr.descs = s.rxr.descs ∧
    (∀ j, (s1.kring.slots.getD j default).buf_idx = (s.kring.slots.getD j default).buf_idx) := by
  simp only [rxImportPhase] at h
  split at h
  · cases hloop : rxImportLoop (s.kring.nkr_num_slots - 1) s.rxr.descs fuel
        { slots := s.kring.slots, trace := s.trace,
          nm_i := netmap_idx_n2k s.kring.nkr_num_slots s.kring.nkr_hwofs s.rxr.next_to_clean,
          nic_i := s.rxr.next_to_clean,
          ntail := s.kring.nkr_num_slots - 1 + 1, complete := false, n := 0 } with
    | none => rw [hloop] at h; exact absurd h (by simp)
    | some st =>
      rw [hloop] at h
      have hbuf := rxImportLoop_preserve_buf _ _ _ _ _ hloop
      simp only [Option.some.injEq] at h
      subst h
      exact ⟨rfl, rfl, rfl, rfl, rfl, rfl, rfl, hbuf⟩
  · simp only [Option.some.injEq] at h
    subst h
    exact ⟨rfl, rfl, rfl, rfl, rfl, rfl, rfl, fun j => rfl⟩

/-- The refill loop aborts with the bad-buffer flag exactly when some slot
in the walked range resolves to the placeholder buffer. -/
theorem rxRefillLoop_bad_iff (lim head objtotal bufSize : Nat) :
    ∀ (fuel : Nat) (st st' : RxRefillSt) (bad : Bool),
      rxRefillLoop lim head objtotal bufSize fuel st = some (st', bad) →
      (bad = true ↔ (ringWalk lim head fuel st.nm_i).any
        (fun j => PNMB_is_base objtotal (st.slots.getD j default)) = true) := by
  intro fuel
  induction fuel with
  | zero =>
    intro st st' bad h
    simp only [rxRefillLoop] at h
    split at h
    · simp only [Option.some.injEq, Prod.mk.injEq] at h
      obtain ⟨h1, h2⟩ := h
      simp [← h2, ringWalk]
    · exact absurd h (by simp)
  | succ fuel ih =>
    intro st st' bad h
    simp only [rxRefillLoop] at h
    split at h
    next hhead =>
      simp only [Option.some.injEq, Prod.mk.injEq] at h
      obtain ⟨h1, h2⟩ := h
      simp [← h2, ringWalk, hhead]
    next hhead =>
      split at h
      next hbase =>
        simp only [Option.some.injEq, Prod.mk.injEq] at h
        obtain ⟨h1, h2⟩ := h
        rw [← h2]
        simp only [ringWalk]
        rw [if_neg hhead, List.any_cons, hbase, Bool.true_or]
        simp
      next hbase =>
        have hiff := ih _ _ _ h
        have hcong : (ringWalk lim head fuel (rxRefillStep lim bufSize st).nm_i).any
            (fun j => PNMB_is_base objtotal ((rxRefillStep lim bufSize st).slots.getD j default)) =
            (ringWalk lim head fuel (nm_next st.nm_i lim)).any
            (fun j => PNMB_is_base objtotal (st.slots.getD j default)) := by
          have hnm : (rxRefillStep lim bufSize st).nm_i = nm_next st.nm_i lim := rfl
          rw [hnm]
          refine any_congr _ _ _ (fun j => ?_)
          exact PNMB_is_base_congr objtotal _ _
            (rxRefillStep_preserve lim bufSize st j).2.2.2.1
        rw [hcong] at hiff
        rw [hiff]
        have hb : PNMB_is_base objtotal (st.slots.getD st.nm_i default) = false := by
          simpa using hbase
        simp only [ringWalk]
        rw [if_neg hhead, List.any_cons, hb, Bool.false_or]

/-- When the refill loop aborts on a bad buffer, the final loop state points
at the first placeholder slot of the walked range: the offending netmap and
NIC indices are in lockstep at the same ring distance from the start, that
distance is below both the range length and the fuel, the offending slot
already resolved to the placeholder in the initial slot array, and the NIC
descriptor of the offending slot was not written by the loop. -/
theorem rxRefillLoop_bad_first (lim head objtotal bufSize : Nat) :
    ∀ (fuel : Nat) (st st' : RxRefillSt),
      rxRefillLoop lim head objtotal bufSize fuel st = some (st', true) →
      st.nm_i < lim + 1 → st.nic_i < lim + 1 → head < lim + 1 →
      st'.nm_i < lim + 1 ∧ st'.nic_i < lim + 1 ∧
      ringDist (lim + 1) st.nm_i st'.nm_i = ringDist (lim + 1) st.nic_i st'.nic_i ∧
      ringDist (lim + 1) st.nm_i st'.nm_i < ringDist (lim + 1) st.nm_i head ∧
      ringDist (lim + 1) st.nm_i st'.nm_i < fuel ∧
      PNMB_is_base objtotal (st.slots.getD st'.nm_i default) = true ∧
      st'.descs.getD st'.nic_i default = st.descs.getD st'.nic_i default := by
  intro fuel
  induction fuel with
  | zero =>
    intro st st' h hnm hnic hh
    simp only [rxRefillLoop] at h
    split at h
    · simp at h
    · exact absurd h (by simp)
  | succ fuel ih =>
    intro st st' h hnm hnic hh
    have hlim : lim + 1 - 1 = lim := by omega
    simp only [rxRefillLoop] at h
    split at h
    next hhead => simp at h
    next hhead =>
      split at h
      next hbase =>
        simp only [Option.some.injEq, Prod.mk.injEq, and_true] at h
        subst h
        refine ⟨hnm, hnic, by rw [ringDist_self, ringDist_self], ?_, ?_, hbase, rfl⟩
        · rw [ringDist_self]
          have : ringDist (lim + 1) st.nm_i head ≠ 0 := by
            intro hz
            exact hhead (ringDist_eq_zero _ _ _ hnm hh hz)
          omega
        · rw [ringDist_self]; omega
      next hbase =>
        have hnm2 : (rxRefillStep lim bufSize st).nm_i < lim + 1 := by
          show nm_next st.nm_i lim < lim + 1
          have := nm_next_lt (lim + 1) st.nm_i hnm
          rwa [hlim] at this
        have hnic2 : (rxRefillStep lim bufSize st).nic_i < lim + 1 := by
          show nm_next st.nic_i lim < lim + 1
          have := nm_next_lt (lim + 1) st.nic_i hnic
          rwa [hlim] at this
        obtain ⟨g1, g2, g3, g4, g5, g6, g7⟩ := ih _ _ h hnm2 hnic2 hh
        have hnmeq : (rxRefillStep lim bufSize st).nm_i = nm_next st.nm_i lim := rfl
        have hniceq : (rxRefillStep lim bufSize st).nic_i = nm_next st.nic_i lim := rfl
        rw [hnmeq] at g3 g4 g5
        rw [hniceq] at g3
        -- the error state cannot sit at the loop start
        have hdlt : ringDist (lim + 1) (nm_next st.nm_i lim) head < lim + 1 := by
          have := ringDist_lt (lim + 1) (nm_next st.nm_i lim) head
            (by rw [← hlim] at hnm2 ⊢; exact hnm2) hh
          exact this
        have hnm_ne : st'.nm_i ≠ st.nm_i := by
          intro he
          rw [he] at g4
          have : ringDist (lim + 1) (nm_next st.nm_i lim) st.nm_i = lim := by
            have := ringDist_next_self (lim + 1) st.nm_i hnm
            rwa [hlim] at this
          omega
        have hnic_ne : st'.nic_i ≠ st.nic_i := by
          intro he
          rw [he] at g3
          have : ringDist (lim + 1) (nm_next st.nic_i lim) st.nic_i = lim := by
            have := ringDist_next_self (lim + 1) st.nic_i hnic
            rwa [hlim] at this
          omega
        have hstep_nm : ringDist (lim + 1) (nm_next st.nm_i lim) st'.nm_i + 1 =
            ringDist (lim + 1) st.nm_i st'.nm_i := by
          have := ringDist_next (lim + 1) st.nm_i st'.nm_i hnm g1 (fun he => hnm_ne he.symm)
          rwa [hlim] at this
        have hstep_nic : ringDist (lim + 1) (nm_next st.nic_i lim) st'.nic_i + 1 =
            ringDist (lim + 1) st.nic_i st'.nic_i := by
          have := ringDist_next (lim + 1) st.nic_i st'.nic_i hnic g2 (fun he => hnic_ne he.symm)
          rwa [hlim] at this
        have hstep_head : ringDist (lim + 1) (nm_next st.nm_i lim) head + 1 =
            ringDist (lim + 1) st.nm_i head := by
          have := ringDist_next (lim + 1) st.nm_i head hnm hh hhead
          rwa [hlim] at this
        refine ⟨g1, g2, by omega, by omega, by omega, ?_, ?_⟩
        · rw [← g6]
          exact (PNMB_is_base_congr objtotal _ _
            (rxRefillStep_preserve lim bufSize st st'.nm_i).2.2.2.1).symm
        · rw [g7]
          show ((rxRefillStep lim bufSize st).descs.getD st'.nic_i default) = _
          simp only [rxRefillStep]
          rw [getD_set_ne _ _ _ _ _ (fun he => hnic_ne he.symm)]

theorem ringWalk_head_nil (lim head : Nat) : ∀ fuel, ringWalk lim head fuel head = [] := by
  intro fuel
  cases fuel <;> simp [ringWalk]

/-- Reinit characterization of the refill phase: the reinit result occurs
exactly when a slot of the walked range resolves to the placeholder buffer,
and in that case nr_hwcur is untouched and the placeholder slot's NIC
descriptor was not written. -/
theorem rxRefillPhase_reinit (fuel : Nat) (s1 s' : RxState) (r : RxResult)
    (hN : 0 < s1.kring.nkr_num_slots)
    (hcur : s1.kring.nr_hwcur < s1.kring.nkr_num_slots)
    (hhead : s1.kring.rhead < s1.kring.nkr_num_slots)
    (hofs : s1.kring.nkr_hwofs < s1.kring.nkr_num_slots)
    (h : rxRefillPhase fuel s1 = some (s', r)) :
    (r = RxResult.reinit ↔
      (ringWalk (s1.kring.nkr_num_slots - 1) s1.kring.rhead fuel s1.kring.nr_hwcur).any
        (fun j => PNMB_is_base s1.objtotal (s1.kring.slots.getD j default)) = true) ∧
    (r = RxResult.reinit →
      s'.kring.nr_hwcur = s1.kring.nr_hwcur ∧ s1.kring.nr_hwcur ≠ s1.kring.rhead ∧
      ∃ j, j < s1.kring.nkr_num_slots ∧
        PNMB_is_base s1.objtotal (s1.kring.slots.getD j default) = true ∧
        j ∈ ringWalk (s1.kring.nkr_num_slots - 1) s1.kring.rhead fuel s1.kring.nr_hwcur ∧
        s'.rxr.descs.getD (netmap_idx_k2n s1.kring.nkr_num_slots s1.kring.nkr_hwofs j)
          default =
        s1.rxr.descs.getD (netmap_idx_k2n s1.kring.nkr_num_slots s1.kring.nkr_hwofs j)
          default) := by
  have hlim : s1.kring.nkr_num_slots - 1 + 1 = s1.kring.nkr_num_slots := by omega
  simp only [rxRefillPhase] at h
  split at h
  next hne =>
    cases hloop : rxRefillLoop (s1.kring.nkr_num_slots - 1) s1.kring.rhead s1.objtotal
        s1.bufSize fuel
        { slots := s1.kring.slots, descs := s1.rxr.descs, trace := s1.trace,
          nm_i := s1.kring.nr_hwcur,
          nic_i := netmap_idx_k2n s1.kring.nkr_num_slots s1.kring.nkr_hwofs s1.kring.nr_hwcur }
      with
    | none => rw [hloop] at h; exact absurd h (by simp)
    | some p =>
      rw [hloop] at h
      obtain ⟨st, bad⟩ := p
      have hiff := rxRefillLoop_bad_iff _ _ _ _ _ _ _ _ hloop
      cases bad with
      | true =>
        simp only [if_true] at h
        simp only [Option.some.injEq, Prod.mk.injEq] at h
        obtain ⟨h1, h2⟩ := h
        subst h2
        constructor
        · simpa using hiff
        · intro _
          obtain ⟨g1, g2, g3, g4, g5, g6, g7⟩ :=
            rxRefillLoop_bad_first _ _ _ _ _ _ _ hloop
              (by simpa [hlim] using hcur)
              (by simpa [hlim] using netmap_idx_k2n_lt _ s1.kring.nkr_hwofs _ hN)
              (by simpa [hlim] using hhead)
          rw [hlim] at g1 g2 g3 g4 g5
          have hnic_eq : st.nic_i =
              netmap_idx_k2n s1.kring.nkr_num_slots s1.kring.nkr_hwofs st.nm_i := by
            refine (ringDist_inj s1.kring.nkr_num_slots
              (netmap_idx_k2n s1.kring.nkr_num_slots s1.kring.nkr_hwofs s1.kring.nr_hwcur)
              st.nic_i _ (netmap_idx_k2n_lt _ _ _ hN) g2
              (netmap_idx_k2n_lt _ _ _ hN) ?_).symm |>.symm
            rw [ringDist_k2n _ _ _ _ hcur g1 hofs]
            exact g3.symm
          refine ⟨by rw [← h1], hne, st.nm_i, g1, g6, ?_, ?_⟩
          · exact ringWalk_mem_of s1.kring.nkr_num_slots s1.kring.rhead fuel
              s1.kring.nr_hwcur st.nm_i hcur g1 hhead g4 g5
          · rw [← h1]
            show st.descs.getD _ default = _
            rw [← hnic_eq]
            exact g7
      | false =>
        simp only [Bool.false_eq_true, if_false] at h
        simp only [Option.some.injEq, Prod.mk.injEq] at h
        obtain ⟨h1, h2⟩ := h
        constructor
        · rw [← h2]
          constructor
          · intro hr
            exact absurd hr (by simp)
          · intro hany
            exact absurd (hiff.2 hany) (by simp)
        · intro hr
          rw [← h2] at hr
          exact absurd hr (by simp)
  next hne =>
    simp only [Option.some.injEq, Prod.mk.injEq] at h
    obtain ⟨h1, h2⟩ := h
    push_neg at hne
    constructor
    · rw [← h2]
      simp [hne, ringWalk_head_nil]
    · intro hr
      rw [← h2] at hr
      exact absurd hr (by simp)

/-- C3: with the interface running and the NIC ring present, ice_netmap_rxsync
requests a ring reinitialization exactly when the external head is outside
the valid index range, or some slot of the refill range (nr_hwcur up to but
excluding rhead) resolves to the reserved placeholder buffer; in the
placeholder case nr_hwcur is not advanced (it keeps its value, which differs
from head) and the offending slot's NIC descriptor is not written. -/
theorem rx_reinit_iff (fuel : Nat) (s s' : RxState) (r : RxResult) (fr : Bool)
    (hrun : s.running = true) (hp : s.rxr.present = true) (hd : s.rxr.desc_ok = true)
    (hN : 0 < s.kring.nkr_num_slots)
    (hcur : s.kring.nr_hwcur < s.kring.nkr_num_slots)
    (hofs : s.kring.nkr_hwofs < s.kring.nkr_num_slots)
    (h : ice_netmap_rxsync fuel s fr = some (s', r)) :
    (r = RxResult.reinit ↔
      (s.kring.nkr_num_slots - 1 < s.kring.rhead ∨
        (ringWalk (s.kring.nkr_num_slots - 1) s.kring.rhead fuel s.kring.nr_hwcur).any
          (fun j => PNMB_is_base s.objtotal (s.kring.slots.getD j default)) = true)) ∧
    (r = RxResult.reinit → s.kring.rhead ≤ s.kring.nkr_num_slots - 1 →
      s'.kring.nr_hwcur = s.kring.nr_hwcur ∧ s.kring.nr_hwcur ≠ s.kring.rhead ∧
      ∃ j, j < s.kring.nkr_num_slots ∧
        PNMB_is_base s.objtotal (s.kring.slots.getD j default) = true ∧
        j ∈ ringWalk (s.kring.nkr_num_slots - 1) s.kring.rhead fuel s.kring.nr_hwcur ∧
        s'.rxr.descs.getD (netmap_idx_k2n s.kring.nkr_num_slots s.kring.nkr_hwofs j)
          default =
        s.rxr.descs.getD (netmap_idx_k2n s.kring.nkr_num_slots s.kring.nkr_hwofs j)
          default) := by
  simp only [ice_netmap_rxsync, hrun, hp, hd, Bool.not_true, Bool.false_eq_true, if_false,
    Bool.or_self] at h
  by_cases hhead : s.kring.nkr_num_slots - 1 < s.kring.rhead
  · rw [if_pos hhead] at h
    simp only [Option.some.injEq, Prod.mk.injEq] at h
    obtain ⟨h1, h2⟩ := h
    constructor
    · rw [← h2]
      simp [hhead]
    · intro _ hcontra
      omega
  · rw [if_neg hhead] at h
    cases himp : rxImportPhase fuel s fr with
    | none => rw [himp] at h; exact absurd h (by simp)
    | some s1 =>
      rw [himp] at h
      obtain ⟨e1, e2, e3, e4, e5, e6, e7, e8⟩ := rxImportPhase_preserve fuel s fr s1 himp
      have hres := rxRefillPhase_reinit fuel s1 s' r
        (by rw [e3]; exact hN) (by rw [e1, e3]; exact hcur)
        (by rw [e2, e3]; omega) (by rw [e4, e3]; exact hofs) h
      have hwalkeq : (ringWalk (s1.kring.nkr_num_slots - 1) s1.kring.rhead fuel
          s1.kring.nr_hwcur).any
          (fun j => PNMB_is_base s1.objtotal (s1.kring.slots.getD j default)) =
          (ringWalk (s.kring.nkr_num_slots - 1) s.kring.rhead fuel s.kring.nr_hwcur).any
          (fun j => PNMB_is_base s.objtotal (s.kring.slots.getD j default)) := by
        rw [e1, e2, e3, e5]
        exact any_congr _ _ _ (fun j => PNMB_is_base_congr _ _ _ (e8 j))
      constructor
      · rw [hres.1, hwalkeq]
        constructor
        · exact Or.inr
        · rintro (hcontra | hany)
          · omega
          · exact hany
      · intro hr _
        obtain ⟨c1, c2, j, d1, d2, d3, d4⟩ := hres.2 hr
        rw [e5, PNMB_is_base_congr s.objtotal _ _ (e8 j)] at d2
        rw [e1, e2, e3] at d3
        rw [e3, e4, e7] at d4
        exact ⟨by rw [c1, e1], by rw [← e1, ← e2]; exact c2, j, by rw [← e3]; exact d1,
          d2, d3, d4⟩

/-- Sample RX state for C3: a 4-slot ring where userspace released slots 0
and 1 (head = 2) and slot 1 carries the invalid buffer handle 0, which
resolves to the placeholder buffer. -/
def c3Sample : RxState :=
  { running := true, netmap_no_pendintr := false, objtotal := 16, bufSize := 2048,
    kring := { nkr_num_slots := 4, nkr_hwofs := 0, nr_hwcur := 0, nr_hwtail := 0,
               rhead := 2, pendintr := false,
               slots := [{ buf_idx := 5, len := 64, flags := default, ptr := 0 },
                         { buf_idx := 0, len := 64, flags := default, ptr := 0 },
                         { buf_idx := 6, len := 64, flags := default, ptr := 0 },
                         { buf_idx := 7, len := 64, flags := default, ptr := 0 }],
               tx := false, hwbuf_len := 0, buf_align := 0 },
    rxr := { present := true, desc_ok := true, descs := List.replicate 4 default,
             next_to_clean := 0, tail_reg := 0 },
    trace := default }

/-- State after the C3 invocation (which requests reinit on slot 1). -/
def c3After : RxState :=
  match ice_netmap_rxsync 8 c3Sample false with
  | some p => p.1
  | none => default

/-- Witness for C3 at the concrete state c3Sample, whose refill range holds
a placeholder slot, so the invocation reports reinit. -/
theorem rx_reinit_iff_witness :
    RxResult.reinit = RxResult.reinit ↔
      (c3Sample.kring.nkr_num_slots - 1 < c3Sample.kring.rhead ∨
        (ringWalk (c3Sample.kring.nkr_num_slots - 1) c3Sample.kring.rhead 8
          c3Sample.kring.nr_hwcur).any
          (fun j => PNMB_is_base c3Sample.objtotal (c3Sample.kring.slots.getD j default)) =
          true) :=
  (rx_reinit_iff 8 c3Sample c3After RxResult.reinit false rfl rfl rfl (by decide)
    (by decide) (by decide) (by decide)).1

/-! Claim C1: the import phase advances nr_hwtail exactly to one past the
last completed end-of-frame descriptor of the scanned descriptor-done run. -/

theorem nm_next_le (i lim : Nat) (h : i ≤ lim) : nm_next i lim ≤ lim := by
  unfold nm_next; split <;> omega

theorem nm_next_eq_mod (i lim : Nat) (h : i ≤ lim) : nm_next i lim = (i + 1) % (lim + 1) := by
  unfold nm_next
  split
  · subst i
    rw [Nat.mod_self]
  · rw [Nat.mod_eq_of_lt (by omega)]

/-- Offset (within the descriptor-done run starting at nic) of the last
descriptor that both completed (DD) and ended a frame (EOF); none when the
run holds no EOF descriptor.  Mirrors the scan order of the import loop. -/
def lastEofIdx (lim : Nat) (descs : List IceRxDesc) : Nat → Nat → Option Nat
  | 0, _ => none
  | fuel+1, nic =>
    if (descs.getD nic default).status_error0 &&& (1 <<< ICE_RX_FLEX_DESC_STATUS0_DD_S) = 0 then
      none
    else
      match lastEofIdx lim descs fuel (nm_next nic lim) with
      | some t => some (t + 1)
      | none =>
        if (descs.getD nic default).status_error0 &&&
            (1 <<< ICE_RX_FLEX_DESC_STATUS0_EOF_S) = 0 then
          none
        else some 0

/-- Length of the consecutive descriptor-done run starting at nic,
fuel-bounded: the number of descriptors the import loop processes. -/
def ddRunLen (lim : Nat) (descs : List IceRxDesc) : Nat → Nat → Nat
  | 0, _ => 0
  | fuel+1, nic =>
    if (descs.getD nic default).status_error0 &&& (1 <<< ICE_RX_FLEX_DESC_STATUS0_DD_S) = 0 then
      0
    else ddRunLen lim descs fuel (nm_next nic lim) + 1

theorem lastEofIdx_lt_ddRunLen (lim : Nat) (descs : List IceRxDesc) :
    ∀ (fuel nic t : Nat), lastEofIdx lim descs fuel nic = some t →
      t < ddRunLen lim descs fuel nic := by
  intro fuel
  induction fuel with
  | zero => intro nic t h; exact absurd h (by simp [lastEofIdx])
  | succ fuel ih =>
    intro nic t h
    simp only [lastEofIdx] at h
    split at h
    · exact absurd h (by simp)
    next hdd =>
      simp only [ddRunLen, if_neg hdd]
      split at h
      next u heq =>
        simp only [Option.some.injEq] at h
        have := ih (nm_next nic lim) u heq
        omega
      next heq =>
        split at h
        · exact absurd h (by simp)
        · simp only [Option.some.injEq] at h
          omega

theorem rxNorm_eq_of_false (st : RxImportSt) (h : st.complete = false) : rxNorm st = st := by
  simp [rxNorm, h]

theorem rxNorm_idem (st : RxImportSt) : rxNorm (rxNorm st) = rxNorm st := by
  by_cases h : st.complete <;> simp [rxNorm, h]

theorem rxImportLoop_norm (lim : Nat) (descs : List IceRxDesc) :
    ∀ (fuel : Nat) (st : RxImportSt),
      rxImportLoop lim descs fuel st = rxImportLoop lim descs fuel (rxNorm st)
  | 0, st => rfl
  | fuel+1, st => by
    simp only [rxImportLoop, rxNorm_idem]

theorem rxPoll_fields (st : RxImportSt) :
    (rxPoll st).nm_i = st.nm_i ∧ (rxPoll st).nic_i = st.nic_i ∧
    (rxPoll st).ntail = st.ntail ∧ (rxPoll st).complete = st.complete ∧
    (rxPoll st).n = st.n :=
  ⟨rfl, rfl, rfl, rfl, rfl⟩

/-- Exact characterization of the import loop: the final candidate tail is
one past the last EOF descriptor of the scanned run (in netmap index space),
or the initial candidate when the run holds no EOF descriptor; the iteration
count grows by exactly the run length. -/
theorem rxImportLoop_ntail_n (lim : Nat) (descs : List IceRxDesc) :
    ∀ (fuel : Nat) (st st' : RxImportSt), st.complete = false → st.nm_i ≤ lim →
      rxImportLoop lim descs fuel st = some st' →
      st'.ntail = (match lastEofIdx lim descs fuel st.nic_i with
        | some t => (st.nm_i + t + 1) % (lim + 1)
        | none => st.ntail) ∧
      st'.n = st.n + ddRunLen lim descs fuel st.nic_i := by
  intro fuel
  induction fuel with
  | zero => intro st st' hc hnm h; exact absurd h (by simp [rxImportLoop])
  | succ fuel ih =>
    intro st st' hc hnm h
    simp only [rxImportLoop] at h
    rw [rxNorm_eq_of_false st hc] at h
    split at h
    next hdd =>
      have hddX : (descs.getD st.nic_i default).status_error0 &&&
          (1 <<< ICE_RX_FLEX_DESC_STATUS0_DD_S) = 0 := hdd
      simp only [Option.some.injEq] at h
      subst h
      refine ⟨?_, ?_⟩
      · show st.ntail = (match lastEofIdx lim descs (fuel + 1) st.nic_i with
          | some t => (st.nm_i + t + 1) % (lim + 1)
          | none => st.ntail)
        simp only [lastEofIdx, if_pos hddX]
      · show st.n = st.n + ddRunLen lim descs (fuel + 1) st.nic_i
        simp only [ddRunLen, if_pos hddX]
        omega
    next hdd =>
      have hdd2 : ¬ ((descs.getD st.nic_i default).status_error0 &&&
          (1 <<< ICE_RX_FLEX_DESC_STATUS0_DD_S) = 0) := hdd
      have hunfold : lastEofIdx lim descs (fuel + 1) st.nic_i =
          (match lastEofIdx lim descs fuel (nm_next st.nic_i lim) with
            | some t => some (t + 1)
            | none =>
              if (descs.getD st.nic_i default).status_error0 &&&
                  (1 <<< ICE_RX_FLEX_DESC_STATUS0_EOF_S) = 0 then none
              else some 0) := by
        simp only [lastEofIdx, if_neg hdd2]
      have hrununfold : ddRunLen lim descs (fuel + 1) st.nic_i =
          ddRunLen lim descs fuel (nm_next st.nic_i lim) + 1 := by
        simp only [ddRunLen, if_neg hdd2]
      by_cases heof : (descs.getD st.nic_i default).status_error0 &&&
          (1 <<< ICE_RX_FLEX_DESC_STATUS0_EOF_S) = 0
      · -- EOF clear: the processed state keeps complete = false
        have hPc : (rxProcess lim descs (rxPoll st)).complete = false := by
          show (!((descs.getD st.nic_i default).status_error0 &&&
            (1 <<< ICE_RX_FLEX_DESC_STATUS0_EOF_S) == 0)) = false
          have hb : ((descs.getD st.nic_i default).status_error0 &&&
              (1 <<< ICE_RX_FLEX_DESC_STATUS0_EOF_S) == 0) = true := beq_iff_eq.mpr heof
          rw [hb]
          rfl
        obtain ⟨ih1, ih2⟩ := ih _ _ hPc (nm_next_le _ _ hnm) h
        have hnicP : (rxProcess lim descs (rxPoll st)).nic_i = nm_next st.nic_i lim := rfl
        have hnmP : (rxProcess lim descs (rxPoll st)).nm_i = nm_next st.nm_i lim := rfl
        have hntP : (rxProcess lim descs (rxPoll st)).ntail = st.ntail := rfl
        have hnP : (rxProcess lim descs (rxPoll st)).n = st.n + 1 := rfl
        rw [hnicP, hnmP, hntP] at ih1
        rw [hnicP, hnP] at ih2
        refine ⟨?_, ?_⟩
        · rw [ih1, hunfold]
          cases hrest : lastEofIdx lim descs fuel (nm_next st.nic_i lim) with
          | some u =>
            simp only [hrest]
            rw [nm_next_eq_mod _ _ hnm, Nat.add_assoc, Nat.mod_add_mod]
            congr 1
            omega
          | none =>
            simp only [hrest, if_pos heof]
        · rw [ih2, hrununfold]
          omega
      · -- EOF set: the processed state arms complete, so normalize first
        rw [rxImportLoop_norm] at h
        have hPc : (rxProcess lim descs (rxPoll st)).complete = true := by
          show (!((descs.getD st.nic_i default).status_error0 &&&
            (1 <<< ICE_RX_FLEX_DESC_STATUS0_EOF_S) == 0)) = true
          have hb : ((descs.getD st.nic_i default).status_error0 &&&
              (1 <<< ICE_RX_FLEX_DESC_STATUS0_EOF_S) == 0) = false :=
            beq_eq_false_iff_ne.mpr heof
          rw [hb]
          rfl
        have hnormP : rxNorm (rxProcess lim descs (rxPoll st)) =
            { slots := (rxProcess lim descs (rxPoll st)).slots,
              trace := (rxProcess lim descs (rxPoll st)).trace,
              nm_i := (rxProcess lim descs (rxPoll st)).nm_i,
              nic_i := (rxProcess lim descs (rxPoll st)).nic_i,
              ntail := (rxProcess lim descs (rxPoll st)).nm_i,
              complete := false,
              n := (rxProcess lim descs (rxPoll st)).n } := by
          unfold rxNorm
          rw [hPc]
          rfl
        rw [hnormP] at h
        obtain ⟨ih1, ih2⟩ := ih _ _ rfl (nm_next_le _ _ hnm) h
        dsimp only at ih1 ih2
        have hnicP : (rxProcess lim descs (rxPoll st)).nic_i = nm_next st.nic_i lim := rfl
        have hnmP : (rxProcess lim descs (rxPoll st)).nm_i = nm_next st.nm_i lim := rfl
        have hnP : (rxProcess lim descs (rxPoll st)).n = st.n + 1 := rfl
        rw [hnicP, hnmP] at ih1
        rw [hnicP, hnP] at ih2
        refine ⟨?_, ?_⟩
        · rw [ih1, hunfold]
          cases hrest : lastEofIdx lim descs fuel (nm_next st.nic_i lim) with
          | some u =>
            simp only [hrest]
            rw [nm_next_eq_mod _ _ hnm, Nat.add_assoc, Nat.mod_add_mod]
            congr 1
            omega
          | none =>
            simp only [hrest, if_neg heof]
            rw [nm_next_eq_mod _ _ hnm]
        · rw [ih2, hrununfold]
          omega

/-- Tail update of the import phase: when the phase runs, the new nr_hwtail
is one past the last completed end-of-frame descriptor of the scanned run
(translated to netmap index space), and is unchanged when the run holds no
EOF descriptor. -/
theorem rxImportPhase_hwtail (fuel : Nat) (s : RxState) (fr : Bool) (s1 : RxState)
    (hN : 0 < s.kring.nkr_num_slots)
    (hcond : (s.netmap_no_pendintr || (fr || s.kring.pendintr)) = true)
    (h : rxImportPhase fuel s fr = some s1) :
    s1.kring.nr_hwtail =
      (match lastEofIdx (s.kring.nkr_num_slots - 1) s.rxr.descs fuel s.rxr.next_to_clean with
        | some t => (netmap_idx_n2k s.kring.nkr_num_slots s.kring.nkr_hwofs
            s.rxr.next_to_clean + t + 1) % s.kring.nkr_num_slots
        | none => s.kring.nr_hwtail) := by
  have hlim : s.kring.nkr_num_slots - 1 + 1 = s.kring.nkr_num_slots := by omega
  simp only [rxImportPhase] at h
  rw [if_pos hcond] at h
  cases hloop : rxImportLoop (s.kring.nkr_num_slots - 1) s.rxr.descs fuel
      { slots := s.kring.slots, trace := s.trace,
        nm_i := netmap_idx_n2k s.kring.nkr_num_slots s.kring.nkr_hwofs s.rxr.next_to_clean,
        nic_i := s.rxr.next_to_clean,
        ntail := s.kring.nkr_num_slots - 1 + 1, complete := false, n := 0 } with
  | none => rw [hloop] at h; exact absurd h (by simp)
  | some st =>
    rw [hloop] at h
    obtain ⟨ih1, ih2⟩ := rxImportLoop_ntail_n _ _ fuel _ st rfl
      (by
        have := netmap_idx_n2k_lt s.kring.nkr_num_slots s.kring.nkr_hwofs
          s.rxr.next_to_clean hN
        show netmap_idx_n2k s.kring.nkr_num_slots s.kring.nkr_hwofs s.rxr.next_to_clean ≤
          s.kring.nkr_num_slots - 1
        omega) hloop
    dsimp only at ih1 ih2
    simp only [Option.some.injEq] at h
    cases hmatch : lastEofIdx (s.kring.nkr_num_slots - 1) s.rxr.descs fuel
        s.rxr.next_to_clean with
    | some t =>
      rw [hmatch] at ih1
      dsimp only at ih1
      have hrun := lastEofIdx_lt_ddRunLen _ _ _ _ _ hmatch
      have hn : st.n ≠ 0 := by omega
      have hlt : st.ntail ≤ s.kring.nkr_num_slots - 1 := by
        rw [ih1]
        exact Nat.lt_succ_iff.mp (Nat.mod_lt _ (by omega))
      rw [← h]
      show (if st.n ≠ 0 ∧ st.ntail ≤ s.kring.nkr_num_slots - 1 then st.ntail
        else s.kring.nr_hwtail) = _
      rw [if_pos ⟨hn, hlt⟩, ih1, hlim]
    | none =>
      rw [hmatch] at ih1
      dsimp only at ih1
      have hgt : ¬ (st.n ≠ 0 ∧ st.ntail ≤ s.kring.nkr_num_slots - 1) := by
        intro hcon
        rw [ih1] at hcon
        exact Nat.not_succ_le_self _ hcon.2
      rw [← h]
      show (if st.n ≠ 0 ∧ st.ntail ≤ s.kring.nkr_num_slots - 1 then st.ntail
        else s.kring.nr_hwtail) = _
      rw [if_neg hgt]

/-- Initial state of the C1 scenario: an 8-slot RX ring whose NIC wrote two
completed descriptors of a multi-fragment packet (DD set, EOF clear) while
the third descriptor is still owned by hardware (DD clear). -/
def c1s0 : RxState :=
  { running := true, netmap_no_pendintr := true, objtotal := 32, bufSize := 2048,
    kring := { nkr_num_slots := 8, nkr_hwofs := 0, nr_hwcur := 0, nr_hwtail := 0,
               rhead := 0, pendintr := false,
               slots := [{ buf_idx := 1, len := 64, flags := default, ptr := 0 },
                         { buf_idx := 2, len := 64, flags := default, ptr := 0 },
                         { buf_idx := 3, len := 64, flags := default, ptr := 0 },
                         { buf_idx := 4, len := 64, flags := default, ptr := 0 },
                         { buf_idx := 5, len := 64, flags := default, ptr := 0 },
                         { buf_idx := 6, len := 64, flags := default, ptr := 0 },
                         { buf_idx := 7, len := 64, flags := default, ptr := 0 },
                         { buf_idx := 8, len := 64, flags := default, ptr := 0 }],
               tx := false, hwbuf_len := 0, buf_align := 0 },
    rxr := { present := true, desc_ok := true,
             descs := [{ pkt_addr := 0, hdr_addr := 0, status_error0 := 1, pkt_len := 100 },
                       { pkt_addr := 0, hdr_addr := 0, status_error0 := 1, pkt_len := 100 },
                       { pkt_addr := 0, hdr_addr := 0, status_error0 := 0, pkt_len := 0 },
                       { pkt_addr := 0, hdr_addr := 0, status_error0 := 0, pkt_len := 0 },
                       { pkt_addr := 0, hdr_addr := 0, status_error0 := 0, pkt_len := 0 },
                       { pkt_addr := 0, hdr_addr := 0, status_error0 := 0, pkt_len := 0 },
                       { pkt_addr := 0, hdr_addr := 0, status_error0 := 0, pkt_len := 0 },
                       { pkt_addr := 0, hdr_addr := 0, status_error0 := 0, pkt_len := 0 }],
             next_to_clean := 0, tail_reg := 0 },
    trace := default }

/-- State after the first C1 reconcile: the two fragments were imported but
the tail must not have moved. -/
def c1Mid : RxState :=
  match ice_netmap_rxsync 16 c1s0 false with
  | some p => p.1
  | none => default

/-- State c1Mid after hardware completes the third descriptor with EOF. -/
def c1s1 : RxState :=
  { c1Mid with
    rxr := { c1Mid.rxr with
      descs := c1Mid.rxr.descs.set 2
        { pkt_addr := 0, hdr_addr := 0, status_error0 := 3, pkt_len := 80 } } }

/-- State after the second C1 reconcile, which sees the completed packet. -/
def c1After : RxState :=
  match ice_netmap_rxsync 16 c1s1 false with
  | some p => p.1
  | none => default

/-- C1: when the import phase runs, the user-visible tail nr_hwtail moves
exactly to one past the last completed descriptor carrying the end-of-frame
bit (translated to the netmap index space) and does not move at all when the
completed run holds no end-of-frame descriptor — so the tail never advances
past a descriptor whose EOF bit is clear.  In particular, in the concrete
3-descriptor scenario the first invocation (two completed EOF-less
fragments) leaves the tail at 0 while marking both slots NS_MOREFRAG, and
the invocation after the third (EOF) descriptor completes advances the tail
by exactly 3. -/
theorem rx_tail_eof_gate (fuel : Nat) (s s' : RxState) (r : RxResult) (fr : Bool)
    (hrun : s.running = true) (hp : s.rxr.present = true) (hd : s.rxr.desc_ok = true)
    (hN : 0 < s.kring.nkr_num_slots)
    (hhead : s.kring.rhead ≤ s.kring.nkr_num_slots - 1)
    (hcond : (s.netmap_no_pendintr || (fr || s.kring.pendintr)) = true)
    (h : ice_netmap_rxsync fuel s fr = some (s', r)) :
    (s'.kring.nr_hwtail =
      (match lastEofIdx (s.kring.nkr_num_slots - 1) s.rxr.descs fuel
          s.rxr.next_to_clean with
        | some t => (netmap_idx_n2k s.kring.nkr_num_slots s.kring.nkr_hwofs
            s.rxr.next_to_clean + t + 1) % s.kring.nkr_num_slots
        | none => s.kring.nr_hwtail)) ∧
    c1Mid.kring.nr_hwtail = 0 ∧
    (c1Mid.kring.slots.getD 0 default).flags.ns_morefrag = true ∧
    (c1Mid.kring.slots.getD 1 default).flags.ns_morefrag = true ∧
    c1After.kring.nr_hwtail = 3 ∧
    ringDist c1s0.kring.nkr_num_slots c1s0.kring.nr_hwtail c1After.kring.nr_hwtail = 3 := by
  refine ⟨?_, by decide, by decide, by decide, by decide, by decide⟩
  simp only [ice_netmap_rxsync, hrun, hp, hd, Bool.not_true, Bool.false_eq_true, if_false,
    Bool.or_self] at h
  rw [if_neg (by omega)] at h
  cases himp : rxImportPhase fuel s fr with
  | none => rw [himp] at h; exact absurd h (by simp)
  | some s1 =>
    rw [himp] at h
    have htail := rxImportPhase_hwtail fuel s fr s1 hN hcond himp
    have hpres := rxRefillPhase_preserve fuel s1 s' r h
    rw [hpres.2.1, htail]

/-- Witness for C1 at the concrete first-invocation state of the scenario. -/
theorem rx_tail_eof_gate_witness :
    c1Mid.kring.nr_hwtail =
      (match lastEofIdx (c1s0.kring.nkr_num_slots - 1) c1s0.rxr.descs 16
          c1s0.rxr.next_to_clean with
        | some t => (netmap_idx_n2k c1s0.kring.nkr_num_slots c1s0.kring.nkr_hwofs
            c1s0.rxr.next_to_clean + t + 1) % c1s0.kring.nkr_num_slots
        | none => c1s0.kring.nr_hwtail) :=
  (rx_tail_eof_gate 16 c1s0 c1Mid (RxResult.ret 0) false rfl rfl rfl (by decide)
    (by decide) rfl (by decide)).1

end IceNetmap